import Mathlib

/-!
Verification development for the nutrition/longevity pipeline of this repository
(`src/api/new.ts`, `src/api/test.ts`, the shared helper file, and
`src/lib/longevity.ts`).

The TypeScript sources are shallowly embedded:

* JSON values (the results of `JSON.parse` and the request bodies) are modelled
  by the inductive type `JVal`.  JavaScript `undefined` (an absent property) is
  modelled as `Option.none` at use sites, while JSON `null` is `JVal.null`.
* JavaScript numbers are modelled as exact rationals (`ℚ`).  IEEE-754 rounding
  of intermediate results is out of scope of this embedding; JSON numeric
  literals are modelled with integer (and finite-decimal) values.
* Strings are Lean `String`s; `charCodeAt` is modelled by the Unicode scalar
  value (`Char.toNat`), which agrees with UTF-16 code units on the BMP.
* Fallible parsing returns `Option`.
* Recursive scanners that concrete witnesses must evaluate are written with an
  explicit fuel parameter so that they are structurally recursive and reduce
  inside the kernel.
-/

/-- Model of a parsed JSON value (the result of a successful `JSON.parse`).
JavaScript `undefined` is *not* a `JVal`; absent object properties are
represented by `Option JVal = none` at access sites (`jget`). -/
inductive JVal where
  | null
  | bool (b : Bool)
  | num (q : ℚ)
  | str (s : String)
  | arr (xs : List JVal)
  | obj (es : List (String × JVal))

/-- First-match association-list lookup; models JavaScript property access
`o[k]` on a plain object (JS object keys are unique, so first match is the
match).  Returns `none` for an absent key (JS `undefined`). -/
def lookupKey (k : String) : List (String × JVal) → Option JVal
  | [] => none
  | (k', v) :: es => if k' = k then some v else lookupKey k es

/-- Property access `v[k]` on an arbitrary value: only plain objects have
modelled properties (accessing fields of numbers/strings/arrays yields
`undefined` for the property names used by this code base). -/
def jget (v : JVal) (k : String) : Option JVal :=
  match v with
  | .obj es => lookupKey k es
  | _ => none

/-- JavaScript truthiness of a defined value. -/
def jtruthy : JVal → Bool
  | .null => false
  | .bool b => b
  | .num q => decide (q ≠ 0)
  | .str s => decide (s ≠ "")
  | .arr _ => true
  | .obj _ => true

/-- Truthiness of a possibly-undefined value (`undefined` is falsy). -/
def otruthy : Option JVal → Bool
  | none => false
  | some v => jtruthy v

/-- Nullish test: JS `??` fires on both `undefined` and `null`. -/
def isNullish : Option JVal → Bool
  | none => true
  | some .null => true
  | some _ => false

/-- JS nullish coalescing `a ?? b` on possibly-undefined values. -/
def jcoalesce (a b : Option JVal) : Option JVal :=
  if isNullish a then b else a

/-- Decimal-digit test for the JS `\d` class / `Number` coercion
(`48`/`57` are the code points of `'0'`/`'9'`). -/
def isDigitChar (c : Char) : Bool :=
  decide (48 ≤ c.toNat) && decide (c.toNat ≤ 57)

def digitVal (c : Char) : ℕ := c.toNat - '0'.toNat

/-- Whitespace recognised by `String.prototype.trim` / `Number(string)`
(the common ASCII subset; exotic Unicode space code points are out of scope). -/
def isWsChar (c : Char) : Bool :=
  c = ' ' || c = '\t' || c = '\n' || c = '\r' || c = '\x0b' || c = '\x0c'

def dropWsLeft (cs : List Char) : List Char := cs.dropWhile isWsChar

def dropWsRight (cs : List Char) : List Char :=
  (cs.reverse.dropWhile isWsChar).reverse

/-- Fold a digit list into a natural number (most significant first). -/
def digitsToNat : List Char → ℕ → ℕ
  | [], acc => acc
  | c :: cs, acc => digitsToNat cs (acc * 10 + digitVal c)

/-- Parse an unsigned decimal-fraction numeric string (`"12"`, `"12.5"`,
`".5"`, `"5."`), the subset of `Number(string)` syntax this code can meet.
Exponent/hex forms are out of scope and yield `none` (NaN). -/
def parseDecChars (cs : List Char) : Option ℚ :=
  let intPart := cs.takeWhile isDigitChar
  let rest := cs.dropWhile isDigitChar
  match rest with
  | [] =>
      if intPart.isEmpty then none
      else some ((digitsToNat intPart 0 : ℕ) : ℚ)
  | '.' :: rest2 =>
      let fracPart := rest2.takeWhile isDigitChar
      let rest3 := rest2.dropWhile isDigitChar
      if rest3.isEmpty && !(intPart.isEmpty && fracPart.isEmpty) then
        some (((digitsToNat intPart 0 : ℕ) : ℚ)
          + ((digitsToNat fracPart 0 : ℕ) : ℚ) / ((10 : ℚ) ^ fracPart.length))
      else none
  | _ => none

/-- Model of `Number(stringValue)`: trim, empty string is `0`, optional sign,
then a decimal literal; anything else is NaN (`none`). -/
def strToNum (s : String) : Option ℚ :=
  let cs := dropWsRight (dropWsLeft s.data)
  match cs with
  | [] => some 0
  | '-' :: rest => (parseDecChars rest).map (fun q => -q)
  | '+' :: rest => parseDecChars rest
  | _ => parseDecChars cs

/-- Model of JS numeric coercion `+v` / `Number(v)` on a possibly-undefined
value; `none` is NaN.  (`Number([])`-style array coercion is out of scope and
modelled as NaN, as is `Number` of a plain object, which is NaN in JS.) -/
def jplus : Option JVal → Option ℚ
  | none => none
  | some .null => some 0
  | some (.bool b) => some (if b then 1 else 0)
  | some (.num q) => some q
  | some (.str s) => strToNum s
  | some (.arr _) => none
  | some (.obj _) => none

/-- JS `Math.round`: round half toward positive infinity. -/
def jsRound (q : ℚ) : ℤ := ⌊q + 1 / 2⌋

/-- Model of `Math.max(lo, Math.min(hi, v))` as used by `clamp` in
`src/lib/longevity.ts`. -/
def clampZ (v lo hi : ℤ) : ℤ := max lo (min hi v)

/-! ## Numeric normalization helpers

`safeNum` is the helper-file / `test.ts` variant, `toNumberNew` and
`roundForUI` are the `src/api/new.ts` variants. -/

/-- `src/unnamed/part_000` / `src/api/test.ts`:
`safeNum = (v) => (Number.isFinite(+v) ? Math.round(+v) : 0)`. -/
def safeNum (v : Option JVal) : ℤ :=
  match jplus v with
  | some q => jsRound q
  | none => 0

/-- `src/api/new.ts`: `toNumber = (v) => Number.isFinite(+v) ? +v : null`.
Note the result is `null` (here `none`), not `0`, when the coercion is not
finite. -/
def toNumberNew (v : Option JVal) : Option ℚ := jplus v

/-- `src/api/new.ts`: `roundForUI = (v) => Number.isFinite(+v) ? Math.round(+v) : 0`. -/
def roundForUI (v : Option JVal) : ℤ :=
  match jplus v with
  | some q => jsRound q
  | none => 0

/-- `roundForUI` applied to a `number|null` value (the nutrition record fields
of `new.ts` are numbers or `null`). -/
def roundForUIq (v : Option ℚ) : ℤ :=
  match v with
  | some q => jsRound q
  | none => 0

/-! ## Nutrition records -/

/-- Shape of the record built by `buildCompleteNutrition` in
`src/api/new.ts` (fields are `number | null`). -/
structure NutritionN where
  protein : Option ℚ
  calories : Option ℚ
  carbs : Option ℚ
  fat : Option ℚ
  vitaminA : Option ℚ
  vitaminC : Option ℚ
  vitaminD : Option ℚ
  vitaminE : Option ℚ
  vitaminK : Option ℚ
  vitaminB12 : Option ℚ
  iron : Option ℚ
  calcium : Option ℚ
  magnesium : Option ℚ
  zinc : Option ℚ
  water : Option ℚ
  sodium : Option ℚ
  potassium : Option ℚ
  chloride : Option ℚ
  fiber : Option ℚ

/-- Shape of the record built by `buildCompleteNutrition` in the helper file
`src/unnamed/part_000` (and `src/api/test.ts`): every field is an integer. -/
structure NutritionH where
  protein : ℤ
  calories : ℤ
  carbs : ℤ
  fat : ℤ
  vitaminA : ℤ
  vitaminC : ℤ
  vitaminD : ℤ
  vitaminE : ℤ
  vitaminK : ℤ
  vitaminB12 : ℤ
  iron : ℤ
  calcium : ℤ
  magnesium : ℤ
  zinc : ℤ
  water : ℤ
  sodium : ℤ
  potassium : ℤ
  chloride : ℤ
  fiber : ℤ

/-- `src/api/new.ts` lines 70-90: `buildCompleteNutrition` with
`toNumber` (missing / non-numeric upstream fields become `null`). -/
def buildCompleteNutritionNew (d : JVal) : NutritionN where
  protein := toNumberNew (jget d "protein")
  calories := toNumberNew (jget d "calories")
  carbs := toNumberNew (jcoalesce (jget d "carbs") (jget d "carbohydrates"))
  fat := toNumberNew (jget d "fat")
  vitaminA := toNumberNew (jget d "vitaminA")
  vitaminC := toNumberNew (jget d "vitaminC")
  vitaminD := toNumberNew (jget d "vitaminD")
  vitaminE := toNumberNew (jget d "vitaminE")
  vitaminK := toNumberNew (jget d "vitaminK")
  vitaminB12 := toNumberNew (jget d "vitaminB12")
  iron := toNumberNew (jget d "iron")
  calcium := toNumberNew (jget d "calcium")
  magnesium := toNumberNew (jget d "magnesium")
  zinc := toNumberNew (jget d "zinc")
  water := toNumberNew (jget d "water")
  sodium := toNumberNew (jget d "sodium")
  potassium := toNumberNew (jget d "potassium")
  chloride := toNumberNew (jget d "chloride")
  fiber := toNumberNew (jget d "fiber")

/-- `src/unnamed/part_000` lines 12-32 (also `src/api/test.ts`):
`buildCompleteNutrition` with `safeNum` (missing / non-numeric upstream fields
become `0`, all fields are rounded integers). -/
def buildCompleteNutritionHelpers (d : JVal) : NutritionH where
  protein := safeNum (jget d "protein")
  calories := safeNum (jget d "calories")
  carbs := safeNum (jcoalesce (jget d "carbs") (jget d "carbohydrates"))
  fat := safeNum (jget d "fat")
  vitaminA := safeNum (jget d "vitaminA")
  vitaminC := safeNum (jget d "vitaminC")
  vitaminD := safeNum (jget d "vitaminD")
  vitaminE := safeNum (jget d "vitaminE")
  vitaminK := safeNum (jget d "vitaminK")
  vitaminB12 := safeNum (jget d "vitaminB12")
  iron := safeNum (jget d "iron")
  calcium := safeNum (jget d "calcium")
  magnesium := safeNum (jget d "magnesium")
  zinc := safeNum (jget d "zinc")
  water := safeNum (jget d "water")
  sodium := safeNum (jget d "sodium")
  potassium := safeNum (jget d "potassium")
  chloride := safeNum (jget d "chloride")
  fiber := safeNum (jget d "fiber")

/-- The 19 nutrition field names, in source order of `buildCompleteNutrition`. -/
def nutritionKeys : List String :=
  ["protein", "calories", "carbs", "fat", "vitaminA", "vitaminC", "vitaminD",
   "vitaminE", "vitaminK", "vitaminB12", "iron", "calcium", "magnesium",
   "zinc", "water", "sodium", "potassium", "chloride", "fiber"]

/-- Upstream value feeding nutrition field `k` (the `carbs` field reads
`d.carbs ?? d.carbohydrates`, every other field reads `d[k]`). -/
def nutritionUpstream (k : String) (d : JVal) : Option JVal :=
  if k = "carbs" then jcoalesce (jget d "carbs") (jget d "carbohydrates")
  else jget d k

/-- Field projection of `NutritionH` by name (source order). -/
def fieldH (k : String) (r : NutritionH) : ℤ :=
  if k = "protein" then r.protein
  else if k = "calories" then r.calories
  else if k = "carbs" then r.carbs
  else if k = "fat" then r.fat
  else if k = "vitaminA" then r.vitaminA
  else if k = "vitaminC" then r.vitaminC
  else if k = "vitaminD" then r.vitaminD
  else if k = "vitaminE" then r.vitaminE
  else if k = "vitaminK" then r.vitaminK
  else if k = "vitaminB12" then r.vitaminB12
  else if k = "iron" then r.iron
  else if k = "calcium" then r.calcium
  else if k = "magnesium" then r.magnesium
  else if k = "zinc" then r.zinc
  else if k = "water" then r.water
  else if k = "sodium" then r.sodium
  else if k = "potassium" then r.potassium
  else if k = "chloride" then r.chloride
  else r.fiber

/-- Field projection of `NutritionN` by name (source order). -/
def fieldN (k : String) (r : NutritionN) : Option ℚ :=
  if k = "protein" then r.protein
  else if k = "calories" then r.calories
  else if k = "carbs" then r.carbs
  else if k = "fat" then r.fat
  else if k = "vitaminA" then r.vitaminA
  else if k = "vitaminC" then r.vitaminC
  else if k = "vitaminD" then r.vitaminD
  else if k = "vitaminE" then r.vitaminE
  else if k = "vitaminK" then r.vitaminK
  else if k = "vitaminB12" then r.vitaminB12
  else if k = "iron" then r.iron
  else if k = "calcium" then r.calcium
  else if k = "magnesium" then r.magnesium
  else if k = "zinc" then r.zinc
  else if k = "water" then r.water
  else if k = "sodium" then r.sodium
  else if k = "potassium" then r.potassium
  else if k = "chloride" then r.chloride
  else r.fiber

/-! ## String helpers (substring search, lowercase) -/

/-- Code-point lexicographic order on character lists (the model of the
`localeCompare`-based key comparator; any total linear order gives the same
sorted-key determinism). -/
def charsLe : List Char → List Char → Bool
  | [], _ => true
  | _ :: _, [] => false
  | c :: cs, d :: ds => if c = d then charsLe cs ds else decide (c.toNat < d.toNat)

/-- Does `hay` start with `pat`? -/
def startsWithChars : List Char → List Char → Bool
  | _, [] => true
  | [], _ :: _ => false
  | h :: hs, p :: ps => h = p && startsWithChars hs ps

/-- Does `hay` contain `pat` as a contiguous substring (JS
`String.prototype.includes`)? -/
def containsChars : List Char → List Char → Bool
  | hay, pat =>
    if startsWithChars hay pat then true
    else match hay with
      | [] => false
      | _ :: t => containsChars t pat

/-- JS `String.prototype.includes` on Lean strings. -/
def strIncludes (s sub : String) : Bool := containsChars s.data sub.data

/-- JS `String.prototype.toLowerCase` (ASCII-adequate model). -/
def lowerStr (s : String) : String := ⟨s.data.map Char.toLower⟩

/-- JS `x || y` on possibly-undefined values. -/
def jOr (a b : Option JVal) : Option JVal := if otruthy a then a else b

/-! ## Cooking-yield back-conversion (`src/api/new.ts` lines 7-12, 51-55) -/

/-- `COOKING_YIELD` table. -/
def cookingYield : String → Option ℚ
  | "grilled" => some 0.75
  | "boiled" => some 0.8
  | "baked" => some 0.78
  | "fried" => some 0.7
  | _ => none

/-- `getRawEquivalentGrams(food)`:
`if (food.cook_state !== "cooked") return food.weight_g;`
`const factor = COOKING_YIELD[food.cook_method || "grilled"] ?? 0.75;`
`return food.weight_g / factor;`
The numeric value is modelled (`none` = no numeric result).  In the
non-cooked branch JS returns `weight_g` verbatim; a non-numeric `weight_g`
(which downstream treats as a zero contribution via `|| 0`) is modelled as
`none`.  In the cooked branch JS division coerces `weight_g` with `Number`,
which `jplus` models (including `null / factor = 0`). -/
def isCookedFood (f : JVal) : Bool :=
  match jget f "cook_state" with
  | some (.str s) => s = "cooked"
  | _ => false

/-- `COOKING_YIELD[food.cook_method || "grilled"] ?? 0.75`. -/
def yieldFactorOf (f : JVal) : ℚ :=
  match jOr (jget f "cook_method") (some (.str "grilled")) with
  | some (.str m) => (cookingYield m).getD 0.75
  | _ => 0.75

def getRawEquivalentGrams (f : JVal) : Option ℚ :=
  if !isCookedFood f then
    match jget f "weight_g" with
    | some (.num q) => some q
    | _ => none
  else
    (jplus (jget f "weight_g")).map (fun q => q / yieldFactorOf f)

/-- `src/api/new.ts` lines 796-800: total raw-equivalent weight of the Stage-2
food list: `stage1.foods?.reduce((sum, f) => sum + (getRawEquivalentGrams(f) || 0), 0) || 0`.
(`x || 0` maps the falsy non-contributions — `null`, `NaN`, `0` — to `0`;
the trailing `|| 0` is the identity on the model's total.) -/
def stage2TotalWeight (foods : List JVal) : ℚ :=
  foods.foldl (fun sum f => sum + ((getRawEquivalentGrams f).getD 0)) 0

/-! ## Quantity normalization (`src/api/new.ts` lines 14-17) -/

/-- `normalizeQuantity(q)` applied to a `number|null` argument (the
`normalizeAiFoods` call site): `+null = 0` is finite, so a `null` quantity
yields `Math.max(1, Math.round(0)) = 1`. -/
def normalizeQuantityQ : Option ℚ → Option ℚ
  | none => some 1
  | some x => some ((max 1 (jsRound x) : ℤ) : ℚ)

/-- `normalizeQuantity(q)` applied to an arbitrary (possibly undefined) JS
value (the Stage-2 food-list call site passes `stage0.quantity_description`). -/
def normalizeQuantityJ (q : Option JVal) : Option ℤ :=
  match jplus q with
  | none => none
  | some x => some (max 1 (jsRound x))

/-! ## Food-list normalization (`src/api/new.ts` lines 20-27, 152-182) -/

/-- `COUNT_BASED_FOODS`. -/
def countBasedFoods : List String := ["egg", "eggs", "banana", "apple", "orange", "slice"]

/-- Is the (lower-cased) name count-based?
`COUNT_BASED_FOODS.some(k => name.includes(k))`. -/
def isCountBasedName (name : String) : Bool :=
  countBasedFoods.any (fun k => strIncludes name k)

/-- A normalized `ai_foods` entry as produced by `normalizeAiFoods` in
`src/api/new.ts`.  `name` keeps the raw JS value of `f.name || fallbackName`
(absent if both are falsy and the fallback is undefined); `confidence` is
always a number because `Number.isFinite(f.confidence) ? f.confidence : 1`
only keeps finite numbers. -/
structure NFood where
  name : Option JVal
  weight_g : Option ℚ
  unit : String
  quantity : Option ℚ
  confidence : ℚ

/-- The count-based test applied per food:
`COUNT_BASED_FOODS.some(k => name.includes(k))` for
`name = (f.name || fallbackName || "").toLowerCase()` (a truthy non-string
name would make JS throw at `.toLowerCase()`; modelled as `""`). -/
def countBasedOf (fallbackName : Option JVal) (f : JVal) : Bool :=
  isCountBasedName
    (match jOr (jOr (jget f "name") fallbackName) (some (.str "")) with
     | some (.str s) => lowerStr s
     | _ => "")

/-- One food of the mapped branch of `normalizeAiFoods`. -/
def normalizeOneFood (fallbackName : Option JVal) (quantity : Option ℚ) (f : JVal) : NFood :=
  let isCB := countBasedOf fallbackName f
  { name := jOr (jget f "name") fallbackName
    weight_g := if isCB then none else jplus (jget f "weight_g")
    unit := if isCB then "piece" else "gram"
    quantity := if isCB then normalizeQuantityQ quantity else none
    confidence :=
      match jget f "confidence" with
      | some (.num c) => c
      | _ => 1 }

/-- `normalizeAiFoods(foods, fallbackName, quantity)` of `src/api/new.ts`
lines 152-182. -/
def normalizeAiFoods (foods : Option JVal) (fallbackName : Option JVal)
    (quantity : Option ℚ) : List NFood :=
  match foods with
  | some (.arr (f :: fs)) => (f :: fs).map (normalizeOneFood fallbackName quantity)
  | _ =>
      [{ name := fallbackName
         weight_g := none
         unit := "piece"
         quantity := quantity
         confidence := 1 }]

/-! ## Chicken renaming (`src/api/new.ts` lines 30-48) -/

/-- Replace (or append) a key in an object's entry list, preserving the
position of an existing key — the behaviour of `{ ...food, k: v }` for the
unique-key objects produced by `JSON.parse`. -/
def setKeyEntries (k : String) (v : JVal) : List (String × JVal) → List (String × JVal)
  | [] => [(k, v)]
  | (k', v') :: es => if k' = k then (k, v) :: es else (k', v') :: setKeyEntries k v es

/-- Object-spread update `{ ...food, k: v }` (call sites only ever spread
plain objects). -/
def jsetObj (food : JVal) (k : String) (v : JVal) : JVal :=
  match food with
  | .obj es => .obj (setKeyEntries k v es)
  | other => other

/-- `normalizeChickenName(food)`: if the food has a truthy name whose
lower-case form contains `"chicken"` but not `"breast"`, rename it to
`"chicken breast"` and raise the confidence by `0.1`, capped at `1`
(`Math.min((food.confidence ?? 0.8) + 0.1, 1)`); otherwise return the food
unchanged.  A truthy non-string `name` would make JS throw at
`.toLowerCase()`; that unreachable-for-parsed-schemas case is modelled as the
identity. -/
def chickenBaseConf (food : JVal) : ℚ :=
  match jget food "confidence" with
  | some (.num c) => c
  | some (.bool b) => if b then 1 else 0
  | _ => 0.8

def normalizeChickenName (food : JVal) : JVal :=
  match jget food "name" with
  | some (.str s) =>
      if s = "" then food
      else
        let name := lowerStr s
        if strIncludes name "chicken" && !strIncludes name "breast" then
          jsetObj (jsetObj food "name" (.str "chicken breast")) "confidence"
            (.num (min (chickenBaseConf food + 0.1) 1))
        else food
  | _ => food

/-! ## Association-list update lemmas -/

theorem lookup_setKey_same (k : String) (v : JVal) (es : List (String × JVal)) :
    lookupKey k (setKeyEntries k v es) = some v := by
  induction es with
  | nil => simp [setKeyEntries, lookupKey]
  | cons e es ih =>
      obtain ⟨k', v'⟩ := e
      by_cases h : k' = k
      · subst h; simp [setKeyEntries, lookupKey]
      · simp [setKeyEntries, lookupKey, h, ih]

theorem lookup_setKey_other (k k0 : String) (hk : k ≠ k0) (v : JVal)
    (es : List (String × JVal)) :
    lookupKey k (setKeyEntries k0 v es) = lookupKey k es := by
  induction es with
  | nil => simp [setKeyEntries, lookupKey, Ne.symm hk]
  | cons e es ih =>
      obtain ⟨k', v'⟩ := e
      by_cases h : k' = k0
      · subst h
        have : k' ≠ k := fun h2 => hk (h2.symm)
        simp [setKeyEntries, lookupKey, this]
      · by_cases h2 : k' = k
        · subst h2; simp [setKeyEntries, lookupKey, h]
        · simp [setKeyEntries, lookupKey, h, h2, ih]

theorem foldl_add_map_sum (g : JVal → ℚ) (l : List JVal) (a : ℚ) :
    l.foldl (fun s x => s + g x) a = a + (l.map g).sum := by
  induction l generalizing a with
  | nil => simp
  | cons x xs ih => simp [List.foldl_cons, ih (a + g x)]; ring

/-! ## Claim C2 -/

/-- Claim C2 (corrected), counterexample: in `src/api/new.ts` the
`buildCompleteNutrition` of an empty object has `protein = null` — not the
finite number `0` the claim asserts for a missing upstream field (the
`new.ts` variant uses `toNumber`, which yields `null`, not `safeNum`). -/
theorem buildCompleteNutritionNew_null_counterexample :
    ¬ ∃ q : ℚ, (buildCompleteNutritionNew (.obj [])).protein = some q :=
  fun ⟨_, h⟩ => Option.noConfusion h

/-- Claim C2 (amended): the finite-number/0-default normalization contract
holds for the helper-file (`src/unnamed/part_000`, also `src/api/test.ts`)
`buildCompleteNutrition`: every one of the 19 fields is the integer
`safeNum` of its upstream value, and `safeNum` maps any missing or
non-numeric upstream value to `0` (finiteness holds by the integer codomain).
The `src/api/new.ts` variant instead maps every field through `toNumber`,
which yields `null` for missing/non-numeric upstream values; only the
response-level `roundForUI` coercion turns those `null`s into `0`. -/
theorem buildCompleteNutrition_zero_default (d : JVal) :
    (∀ k ∈ nutritionKeys,
       fieldH k (buildCompleteNutritionHelpers d) = safeNum (nutritionUpstream k d))
    ∧ (∀ v, jplus v = none → safeNum v = 0)
    ∧ (∀ k ∈ nutritionKeys,
         fieldN k (buildCompleteNutritionNew d) = toNumberNew (nutritionUpstream k d))
    ∧ (∀ v, jplus v = none → toNumberNew v = none)
    ∧ roundForUIq none = 0 := by
  refine ⟨?_, ?_, ?_, ?_, rfl⟩
  · intro k hk
    simp only [nutritionKeys, List.mem_cons, List.not_mem_nil, or_false] at hk
    rcases hk with rfl | rfl | rfl | rfl | rfl | rfl | rfl | rfl | rfl | rfl |
      rfl | rfl | rfl | rfl | rfl | rfl | rfl | rfl | rfl <;> rfl
  · intro v h
    simp [safeNum, h]
  · intro k hk
    simp only [nutritionKeys, List.mem_cons, List.not_mem_nil, or_false] at hk
    rcases hk with rfl | rfl | rfl | rfl | rfl | rfl | rfl | rfl | rfl | rfl |
      rfl | rfl | rfl | rfl | rfl | rfl | rfl | rfl | rfl <;> rfl
  · intro v h
    simp [toNumberNew, h]

/-- Witness for `buildCompleteNutrition_zero_default` at `d = {}` and
`k = "protein"`: the helper-variant field is `0` for the missing upstream. -/
theorem buildCompleteNutrition_zero_default_witness :
    fieldH "protein" (buildCompleteNutritionHelpers (.obj [])) =
      safeNum (nutritionUpstream "protein" (.obj []))
    ∧ safeNum none = 0 :=
  ⟨(buildCompleteNutrition_zero_default (.obj [])).1 "protein" (by decide),
   (buildCompleteNutrition_zero_default (.obj [])).2.1 none rfl⟩

/-! ## Claim C5 -/

/-- Claim C5 (corrected), counterexample: `normalizeAiFoods` applied to a
single non-count-based food with no usable weight (`{"name":"rice"}`)
produces `unit = "gram"` with `weight_g = null`, so `weight_g` is *not* null
exactly when `unit` is `"piece"`, and non-count-based foods do *not* always
carry a numeric `weight_g`. -/
theorem normalizeAiFoods_gram_null_counterexample :
    ¬ (∀ f ∈ normalizeAiFoods (some (.arr [.obj [("name", .str "rice")]])) none none,
         (f.weight_g = none ↔ f.unit = "piece")) := by
  intro h
  have hmem :
      normalizeOneFood none none (.obj [("name", .str "rice")]) ∈
        normalizeAiFoods (some (.arr [.obj [("name", .str "rice")]])) none none := by
    simp [normalizeAiFoods]
  have h2 := h _ hmem
  have hw : (normalizeOneFood none none (.obj [("name", .str "rice")])).weight_g = none := rfl
  have hu : (normalizeOneFood none none (.obj [("name", .str "rice")])).unit = "gram" := rfl
  have := h2.mp hw
  rw [hu] at this
  exact absurd this (by decide)

/-- Claim C5 (amended): in every `FoodItem` produced by `normalizeAiFoods`,
`unit = "piece"` implies `weight_g` is null; count-based foods have unit
`"piece"`, null `weight_g`, and quantity `normalizeQuantity(quantity)` from
the classifier; non-count-based foods have unit `"gram"` and `weight_g` equal
to the numeric coercion `+f.weight_g` when that is finite — but `null`
otherwise, so a `"gram"` food may still have a null weight.  The fallback
(empty/non-array) branch also produces unit `"piece"` with null weight. -/
theorem normalizeAiFoods_unit_weight (foods fallbackName : Option JVal) (qty : Option ℚ) :
    (∀ f ∈ normalizeAiFoods foods fallbackName qty, f.unit = "piece" → f.weight_g = none)
    ∧ (∀ fv : JVal, countBasedOf fallbackName fv = true →
         (normalizeOneFood fallbackName qty fv).unit = "piece"
         ∧ (normalizeOneFood fallbackName qty fv).weight_g = none
         ∧ (normalizeOneFood fallbackName qty fv).quantity = normalizeQuantityQ qty)
    ∧ (∀ fv : JVal, countBasedOf fallbackName fv = false →
         (normalizeOneFood fallbackName qty fv).unit = "gram"
         ∧ (normalizeOneFood fallbackName qty fv).weight_g = jplus (jget fv "weight_g")
         ∧ (normalizeOneFood fallbackName qty fv).quantity = none) := by
  refine ⟨?_, ?_, ?_⟩
  · intro f hf hu
    have hmap : ∀ fv : JVal, f = normalizeOneFood fallbackName qty fv → f.weight_g = none := by
      intro fv hf2
      by_cases hc : countBasedOf fallbackName fv = true
      · rw [hf2]; simp [normalizeOneFood, hc]
      · exfalso
        simp only [Bool.not_eq_true] at hc
        have hg : f.unit = "gram" := by rw [hf2]; simp [normalizeOneFood, hc]
        rw [hu] at hg
        exact absurd hg.symm (by decide)
    rcases foods with _ | v
    · simp [normalizeAiFoods] at hf; rw [hf]
    · cases v with
      | arr xs =>
          cases xs with
          | nil => simp [normalizeAiFoods] at hf; rw [hf]
          | cons g gs =>
              simp only [normalizeAiFoods, List.mem_map] at hf
              obtain ⟨fv, _, rfl⟩ := hf
              exact hmap fv rfl
      | null => simp [normalizeAiFoods] at hf; rw [hf]
      | bool b => simp [normalizeAiFoods] at hf; rw [hf]
      | num q => simp [normalizeAiFoods] at hf; rw [hf]
      | str s => simp [normalizeAiFoods] at hf; rw [hf]
      | obj es => simp [normalizeAiFoods] at hf; rw [hf]
  · intro fv hc
    refine ⟨?_, ?_, ?_⟩ <;> simp [normalizeOneFood, hc]
  · intro fv hc
    refine ⟨?_, ?_, ?_⟩ <;> simp [normalizeOneFood, hc]

/-- Witness for `normalizeAiFoods_unit_weight`: a `"2 eggs"`-style count-based
food gets `unit = "piece"` and null weight. -/
theorem normalizeAiFoods_unit_weight_witness :
    (normalizeOneFood none none (.obj [("name", .str "eggs"), ("weight_g", .num 50)])).unit
        = "piece"
    ∧ (normalizeOneFood none none
        (.obj [("name", .str "eggs"), ("weight_g", .num 50)])).weight_g = none := by
  have h := (normalizeAiFoods_unit_weight
      (some (.arr [.obj [("name", .str "eggs"), ("weight_g", .num 50)]])) none none).2.1
      (.obj [("name", .str "eggs"), ("weight_g", .num 50)]) (by decide)
  exact ⟨h.1, h.2.1⟩

/-! ## Claim C6 -/

/-- Claim C6 (confirmed): `getRawEquivalentGrams` returns `weight_g`
unchanged when `cook_state` is not `"cooked"`, and otherwise divides by the
cook method's yield factor — grilled `0.75`, boiled `0.8`, baked `0.78`,
fried `0.7`, defaulting to `0.75` for a missing (nullish/falsy) or unknown
method; the Stage-2 total weight is the sum of the per-food raw-equivalent
grams (each `|| 0`-defaulted). -/
theorem getRawEquivalentGrams_spec (f : JVal) (w : ℚ)
    (hw : jget f "weight_g" = some (.num w)) :
    (isCookedFood f = false → getRawEquivalentGrams f = some w)
    ∧ (isCookedFood f = true → getRawEquivalentGrams f = some (w / yieldFactorOf f))
    ∧ (jget f "cook_method" = some (.str "grilled") → yieldFactorOf f = 0.75)
    ∧ (jget f "cook_method" = some (.str "boiled") → yieldFactorOf f = 0.8)
    ∧ (jget f "cook_method" = some (.str "baked") → yieldFactorOf f = 0.78)
    ∧ (jget f "cook_method" = some (.str "fried") → yieldFactorOf f = 0.7)
    ∧ (isNullish (jget f "cook_method") = true → yieldFactorOf f = 0.75)
    ∧ (∀ m, jget f "cook_method" = some (.str m) → cookingYield m = none →
         yieldFactorOf f = 0.75)
    ∧ (∀ foods : List JVal,
         stage2TotalWeight foods = (foods.map (fun g => (getRawEquivalentGrams g).getD 0)).sum) := by
  refine ⟨?_, ?_, ?_, ?_, ?_, ?_, ?_, ?_, ?_⟩
  · intro hc
    simp [getRawEquivalentGrams, hc, hw]
  · intro hc
    simp [getRawEquivalentGrams, hc, hw, jplus]
  · intro hm
    simp [yieldFactorOf, hm, jOr, otruthy, jtruthy, cookingYield]
  · intro hm
    simp [yieldFactorOf, hm, jOr, otruthy, jtruthy, cookingYield]
  · intro hm
    simp [yieldFactorOf, hm, jOr, otruthy, jtruthy, cookingYield]
  · intro hm
    simp [yieldFactorOf, hm, jOr, otruthy, jtruthy, cookingYield]
  · intro hm
    rcases h : jget f "cook_method" with _ | v
    · simp [yieldFactorOf, h, jOr, otruthy, cookingYield]
    · rw [h] at hm
      cases v with
      | null => simp [yieldFactorOf, h, jOr, otruthy, jtruthy, cookingYield]
      | bool b => simp [isNullish] at hm
      | num q => simp [isNullish] at hm
      | str s => simp [isNullish] at hm
      | arr xs => simp [isNullish] at hm
      | obj es => simp [isNullish] at hm
  · intro m hm hy
    by_cases he : m = ""
    · subst he
      simp [yieldFactorOf, hm, jOr, otruthy, jtruthy, cookingYield]
    · simp [yieldFactorOf, hm, jOr, otruthy, jtruthy, he, hy]
  · intro foods
    simpa using foldl_add_map_sum (fun g => (getRawEquivalentGrams g).getD 0) foods 0

/-- Witness for `getRawEquivalentGrams_spec`: a 100 g boiled food is
back-converted by dividing by `0.8`. -/
theorem getRawEquivalentGrams_spec_witness :
    getRawEquivalentGrams
        (.obj [("weight_g", .num 100), ("cook_state", .str "cooked"),
               ("cook_method", .str "boiled")])
      = some (100 / yieldFactorOf
          (.obj [("weight_g", .num 100), ("cook_state", .str "cooked"),
                 ("cook_method", .str "boiled")]))
    ∧ yieldFactorOf
        (.obj [("weight_g", .num 100), ("cook_state", .str "cooked"),
               ("cook_method", .str "boiled")]) = 0.8 := by
  have h := getRawEquivalentGrams_spec
    (.obj [("weight_g", .num 100), ("cook_state", .str "cooked"),
           ("cook_method", .str "boiled")]) 100 rfl
  exact ⟨h.2.1 rfl, h.2.2.2.1 rfl⟩

/-! ## Claim C7 -/

/-- Claim C7 (corrected), counterexample: a food explicitly described as
bone-in (`"bone-in chicken thigh"`) is still renamed — `normalizeChickenName`
has no bone-in/skin-on exemption, it renames every food whose name contains
`"chicken"` without `"breast"`.  Under the claim as stated this food should
have been left unchanged. -/
theorem normalizeChickenName_bone_in_counterexample :
    jget (normalizeChickenName (.obj [("name", .str "bone-in chicken thigh")])) "name"
        = some (.str "chicken breast")
    ∧ jget (.obj [("name", .str "bone-in chicken thigh")] : JVal) "name"
        = some (.str "bone-in chicken thigh")
    ∧ normalizeChickenName (.obj [("name", .str "bone-in chicken thigh")])
        ≠ (.obj [("name", .str "bone-in chicken thigh")] : JVal) := by
  refine ⟨rfl, rfl, ?_⟩
  intro h
  have h1 : jget (normalizeChickenName (.obj [("name", .str "bone-in chicken thigh")])) "name"
      = some (.str "chicken breast") := rfl
  rw [h] at h1
  have h2 : jget (.obj [("name", .str "bone-in chicken thigh")] : JVal) "name"
      = some (.str "bone-in chicken thigh") := rfl
  rw [h2] at h1
  have : ("bone-in chicken thigh" : String) = "chicken breast" := by
    injection h1 with h3
    injection h3
  exact absurd this (by decide)

/-- Claim C7 (amended): every food whose (string) name contains `"chicken"`
but not `"breast"` (case-insensitively) — regardless of any bone-in/skin-on
description — is renamed to `"chicken breast"` with confidence
`min((confidence ?? 0.8) + 0.1, 1)`, all other keys unchanged; every other
food (name lacking `"chicken"`, containing `"breast"`, or falsy/absent) is
returned entirely unchanged. -/
theorem normalizeChickenName_spec (es : List (String × JVal)) (s : String)
    (hname : lookupKey "name" es = some (.str s)) :
    (s ≠ "" → strIncludes (lowerStr s) "chicken" = true →
      strIncludes (lowerStr s) "breast" = false →
        jget (normalizeChickenName (.obj es)) "name" = some (.str "chicken breast")
        ∧ (∀ c : ℚ, lookupKey "confidence" es = some (.num c) →
            jget (normalizeChickenName (.obj es)) "confidence"
              = some (.num (min (c + 0.1) 1)))
        ∧ (lookupKey "confidence" es = none →
            jget (normalizeChickenName (.obj es)) "confidence"
              = some (.num (min ((0.8 : ℚ) + 0.1) 1)))
        ∧ (∀ k, k ≠ "name" → k ≠ "confidence" →
            jget (normalizeChickenName (.obj es)) k = jget (.obj es) k))
    ∧ (strIncludes (lowerStr s) "chicken" = false ∨ strIncludes (lowerStr s) "breast" = true →
        normalizeChickenName (.obj es) = .obj es)
    ∧ (s = "" → normalizeChickenName (.obj es) = .obj es) := by
  have hj : jget (.obj es) "name" = some (.str s) := hname
  refine ⟨?_, ?_, ?_⟩
  · intro hs hch hbr
    have hrw : normalizeChickenName (.obj es) =
        jsetObj (jsetObj (.obj es) "name" (.str "chicken breast")) "confidence"
          (.num (min (chickenBaseConf (.obj es) + 0.1) 1)) := by
      simp [normalizeChickenName, jget, hname, hs, hch, hbr]
    refine ⟨?_, ?_, ?_, ?_⟩
    · rw [hrw]
      show lookupKey "name"
          (setKeyEntries "confidence" _ (setKeyEntries "name" _ es)) = _
      rw [lookup_setKey_other _ _ (by decide), lookup_setKey_same]
    · intro c hc
      rw [hrw]
      have hcc : chickenBaseConf (.obj es) = c := by
        simp [chickenBaseConf, jget, hc]
      rw [hcc]
      show lookupKey "confidence"
          (setKeyEntries "confidence" _ (setKeyEntries "name" _ es)) = _
      rw [lookup_setKey_same]
    · intro hc
      rw [hrw]
      have hcc : chickenBaseConf (.obj es) = 0.8 := by
        simp [chickenBaseConf, jget, hc]
      rw [hcc]
      show lookupKey "confidence"
          (setKeyEntries "confidence" _ (setKeyEntries "name" _ es)) = _
      rw [lookup_setKey_same]
    · intro k hk1 hk2
      rw [hrw]
      show lookupKey k
          (setKeyEntries "confidence" _ (setKeyEntries "name" _ es)) = lookupKey k es
      rw [lookup_setKey_other _ _ hk2, lookup_setKey_other _ _ hk1]
  · intro hor
    by_cases hs : s = ""
    · simp [normalizeChickenName, hj, hs]
    · rcases hor with hch | hbr
      · simp [normalizeChickenName, hj, hs, hch]
      · simp [normalizeChickenName, hj, hs, hbr]
  · intro hs
    simp [normalizeChickenName, hj, hs]

/-- Witness for `normalizeChickenName_spec`: `"grilled chicken"` (no
explicit cut) is renamed to `"chicken breast"`, and with no confidence field
the boosted confidence is `min(0.8 + 0.1, 1)`. -/
theorem normalizeChickenName_spec_witness :
    jget (normalizeChickenName (.obj [("name", .str "grilled chicken")])) "name"
        = some (.str "chicken breast")
    ∧ jget (normalizeChickenName (.obj [("name", .str "grilled chicken")])) "confidence"
        = some (.num (min ((0.8 : ℚ) + 0.1) 1)) := by
  have h := (normalizeChickenName_spec [("name", .str "grilled chicken")]
      "grilled chicken" rfl).1 (by decide) (by decide) (by decide)
  exact ⟨h.1, h.2.2.1 rfl⟩

/-! ## Stable serialization (`src/lib/longevity.ts` lines 67-81)

`stableStringify` sorts object keys before rendering; the JS comparator is
`a.localeCompare(b)`, modelled here as character-wise code-point order
(`charsLe`), a total linear order — which is all the sorted-key determinism
argument needs. -/

/-- Lower-case hex digit (for `\u00XX` escapes). -/
def hexChar (n : ℕ) : Char :=
  if n < 10 then Char.ofNat (48 + n) else Char.ofNat (87 + n)

def digitChar (n : ℕ) : Char := Char.ofNat (48 + n)

/-- `JSON.stringify` escaping of one string character. -/
def jsonEscapeChar (c : Char) : List Char :=
  if c = '"' then ['\\', '"']
  else if c = '\\' then ['\\', '\\']
  else if c = '\n' then ['\\', 'n']
  else if c = '\r' then ['\\', 'r']
  else if c = '\t' then ['\\', 't']
  else if c = '\x08' then ['\\', 'b']
  else if c = '\x0c' then ['\\', 'f']
  else if c.toNat < 32 then
    ['\\', 'u', '0', '0', hexChar (c.toNat / 16), hexChar (c.toNat % 16)]
  else [c]

/-- `JSON.stringify` of a string, as a character list. -/
def jsonQuoteChars (s : String) : List Char :=
  '"' :: (s.data.flatMap jsonEscapeChar ++ ['"'])

/-- Decimal digits of a natural number (structural via fuel so that concrete
witnesses reduce; the initial fuel `n + 1` always suffices). -/
def natToCharsAux : ℕ → ℕ → List Char
  | 0, _ => []
  | fuel + 1, n =>
      if n < 10 then [digitChar n]
      else natToCharsAux fuel (n / 10) ++ [digitChar (n % 10)]

def natToChars (n : ℕ) : List Char := natToCharsAux (n + 1) n

def intToChars (i : ℤ) : List Char :=
  if i < 0 then '-' :: natToChars i.natAbs else natToChars i.toNat

/-- Decimal expansion of the fractional remainder `r / d` (terminates at 40
digits; JS prints doubles, whose shortest-round-trip formatting this exact
model approximates for the finite-decimal rationals the pipeline produces). -/
def decFracChars : ℕ → ℕ → ℕ → List Char
  | 0, _, _ => []
  | fuel + 1, r, d =>
      if r = 0 then []
      else digitChar (r * 10 / d) :: decFracChars fuel (r * 10 % d) d

/-- JS number-to-string for the model's rationals. -/
def numToChars (q : ℚ) : List Char :=
  if q.den = 1 then intToChars q.num
  else
    (if q.num < 0 then ['-'] else []) ++
      natToChars (q.num.natAbs / q.den) ++
      '.' :: decFracChars 40 (q.num.natAbs % q.den) q.den

/-- Key order used by the model for `.sort(([a], [b]) => a.localeCompare(b))`. -/
def keyLeB (a b : String × JVal) : Bool := charsLe a.1.data b.1.data

def keyLeR (a b : String × JVal) : Prop := keyLeB a b = true

instance : DecidableRel keyLeR := fun a b => instDecidableEqBool (keyLeB a b) true

/-- `Object.entries(value).sort(([a],[b]) => a.localeCompare(b))`. -/
def sortEntriesByKey (es : List (String × JVal)) : List (String × JVal) :=
  List.insertionSort keyLeR es

def joinComma (xs : List String) : String := String.intercalate "," xs

theorem sizeOf_sortEntries_mem {es : List (String × JVal)} {e : String × JVal}
    (h : e ∈ sortEntriesByKey es) : sizeOf e.2 < sizeOf (JVal.obj es) := by
  have h1 : e ∈ es :=
    (List.perm_insertionSort keyLeR es).mem_iff.mp (by simpa [sortEntriesByKey] using h)
  have h2 := List.sizeOf_lt_of_mem h1
  obtain ⟨a, b⟩ := e
  simp only [JVal.obj.sizeOf_spec, Prod.mk.sizeOf_spec] at h2 ⊢
  omega

/-- `stableStringify` of `src/lib/longevity.ts`: primitives via
`JSON.stringify`, arrays element-wise, objects with sorted keys.
(`undefined` cannot occur inside a `JVal`; the top-level
`String(null) = "null"` case is the `.null` case.) -/
def stableStringify : JVal → String
  | .null => "null"
  | .bool b => if b then "true" else "false"
  | .num q => ⟨numToChars q⟩
  | .str s => ⟨jsonQuoteChars s⟩
  | .arr xs => "[" ++ joinComma (xs.attach.map (fun x => stableStringify x.1)) ++ "]"
  | .obj es =>
      "\x7b" ++
        joinComma (((sortEntriesByKey es).attach).map
          (fun e => String.mk (jsonQuoteChars e.1.1) ++ ":" ++ stableStringify e.1.2)) ++
      "\x7d"
  decreasing_by
  · have h := List.sizeOf_lt_of_mem x.2
    simp only [JVal.arr.sizeOf_spec]
    omega
  · exact sizeOf_sortEntries_mem e.2

/-! ## Seeded placeholder scoring (`src/lib/longevity.ts` lines 83-101) -/

/-- `hash32`: 32-bit FNV-1a over the UTF-16 units of the seed (`^=` then
`Math.imul(·, 16777619)` then `>>> 0`, all of which together are arithmetic
mod `2^32`). -/
def hash32 (s : String) : ℕ :=
  s.data.foldl (fun h c => ((h ^^^ c.toNat) * 16777619) % 4294967296) 2166136261

/-- `scoreFromSeed(seed, min, max)` (parameters renamed `lo`/`hi` to avoid
clashing with Lean's `min`/`max`): hash-ratio scaling into `[lo, hi]`,
clamped. -/
def scoreFromSeed (seed : String) (lo hi : ℤ) : ℤ :=
  let hashed := hash32 seed
  let value := lo + jsRound (((hi - lo : ℤ) : ℚ) * ((hashed : ℚ) / 4294967295))
  max lo (min hi value)

/-- `toNumber(value, fallback = 0)` of `src/lib/longevity.ts`. -/
def toNumberL (v : Option JVal) (fallback : ℚ) : ℚ := (jplus v).getD fallback

/-- `pickComputed(today, healthRecord)`. -/
def pickComputed (today : List (String × JVal)) (healthRecord : Option (List (String × JVal))) :
    List (String × JVal) :=
  match lookupKey "computed" today with
  | some (.obj es) => es
  | _ =>
      match healthRecord with
      | some h =>
          match lookupKey "computed" h with
          | some (.obj es) => es
          | _ => []
      | none => []

/-! ## Face / body placeholder analysis (`src/lib/longevity.ts` lines 234-413) -/

inductive FaceFat where
  | low
  | medium
  | high
  deriving DecidableEq

def FaceFat.label : FaceFat → String
  | .low => "low"
  | .medium => "medium"
  | .high => "high"

/-- The threshold classifier on the jawline/skin composite
(`combined >= 72 ? "low" : combined >= 52 ? "medium" : "high"`). -/
def faceFatOfComposite (c : ℤ) : FaceFat :=
  if 72 ≤ c then .low else if 52 ≤ c then .medium else .high

structure FaceMeasurements where
  potential : ℤ
  jawline : ℤ
  eyeArea : ℤ
  cheekbones : ℤ
  symmetry : ℤ
  facialThirds : ℤ
  skinQuality : ℤ

structure FaceSuggestions where
  skin : List String
  jawline : List String
  training : List String
  routine : List String

structure ExercisePlan where
  oneWeek : List String
  oneMonth : List String

structure FaceAnalyzeResponse where
  jawlineIndex : ℤ
  skinClarityIndex : ℤ
  faceFatEstimate : FaceFat
  overallScore : ℤ
  measurements : FaceMeasurements
  suggestions : FaceSuggestions
  exercisePlan : ExercisePlan
  notes : List String

structure BodyAnalyzeResponse where
  bodyFatRangeEstimate : String
  postureScore : ℤ
  muscleDefinitionScore : ℤ
  notes : List String

/-- Common input of `buildFaceAnalysis` / `buildBodyAnalysis`. -/
structure AnalysisInput where
  uid : String
  imageUrl : String
  today : List (String × JVal)
  history : List JVal
  healthRecord : Option (List (String × JVal))

/-- JS `String.prototype.trim` (ASCII-adequate). -/
def trimStr (s : String) : String := ⟨dropWsRight (dropWsLeft s.data)⟩

/-- The `seedBase` string of `buildFaceAnalysis` / `buildBodyAnalysis`
(`tail` is `"face"` or `"body"`). -/
def seedBaseOf (inp : AnalysisInput) (tail : String) : String :=
  String.intercalate "|"
    [inp.uid, trimStr inp.imageUrl, stableStringify (.obj inp.today),
     stableStringify (.arr inp.history),
     stableStringify (match inp.healthRecord with
       | some es => .obj es
       | none => .null),
     tail]

/-- `buildExercisePlan` (`src/lib/longevity.ts` lines 123-158). -/
def buildExercisePlan (jawlineIndex skinClarityIndex : ℤ) (faceFatEstimate : FaceFat)
    (healthScore : ℚ) : ExercisePlan :=
  let intensity : String :=
    if 75 ≤ healthScore then "moderate-high"
    else if 55 ≤ healthScore then "moderate" else "moderate-low"
  let oneWeek : List String :=
    ["Mon: 1) Mewing Hold [TIME 90s x 4] 2) Chin Tucks [REPS 20 x 3] 3) Neck Curls [REPS 15 x 3] 4) Nasal Breathing [TIME 300s x 2].",
     "Tue: 1) Jaw Mobility Drill [TIME 120s x 2] 2) Tongue Posture Clicks [REPS 30 x 3] 3) Neck Extensions [REPS 15 x 3] 4) Zone-2 Nasal Cardio [TIME 600s x 2].",
     "Wed: 1) Mewing Pulses [TIME 60s x 5] 2) Wall Posture Holds [TIME 45s x 4] 3) Neck Isometric Press [TIME 30s x 4] 4) Jaw Control [REPS 16 x 3].",
     "Thu: 1) Chewing Protocol [TIME 300s x 2] 2) Jaw Retractions [REPS 15 x 3] 3) Chin Tuck Holds [TIME 30s x 4] 4) Recovery Walk [TIME 900s x 2].",
     "Fri: 1) Mewing Endurance [TIME 120s x 4] 2) Neck Flex/Ext [REPS 12 x 4] 3) Jaw Open-Close Control [REPS 20 x 3] 4) Breath Intervals [TIME 180s x 4] + Full-body (" ++ intensity ++ ").",
     "Sat: 1) Lymph Drain Sequence [TIME 300s x 2] 2) Nasal Walk [TIME 900s x 2] 3) Tongue Resets [REPS 40 x 2] 4) Jaw Isometrics [TIME 30s x 5].",
     "Sun: 1) Face+Neck Mobility [TIME 300s x 2] 2) Posture Tune-up [TIME 60s x 4] 3) Gentle Walk [TIME 1200s x 1] 4) Technique Audit [REPS 12 x 1]."]
  let oneMonth : List String :=
    ["Week 1: Technique phase. Build daily mewing consistency, posture alignment, and nasal breathing.",
     "Week 2: Volume phase. Increase neck/jaw accessory work by 10-20% and keep strength sessions stable.",
     "Week 3: Definition phase. Tighten sleep/sodium consistency and maintain mild conditioning progression.",
     "Week 4: Consolidation. Deload lifting 20-30%, keep face drills daily, evaluate symmetry/jawline trend."]
  let cond1 : Bool := faceFatEstimate = FaceFat.high || jawlineIndex < 60
  let oneWeek1 :=
    if cond1 then
      oneWeek.set 5 "Sat: 1) Lymph Drain Sequence [TIME 360s x 2] 2) Nasal Walk [TIME 1080s x 2] 3) Tongue Resets [REPS 40 x 2] 4) Jaw Isometrics [TIME 30s x 5] + strict de-bloat day."
    else oneWeek
  let oneMonth1 :=
    if cond1 then
      oneMonth.set 2 "Week 3: Keep deficit mild, stabilize sodium/water, preserve muscle while reducing facial puffiness."
    else oneMonth
  let oneWeek2 :=
    if skinClarityIndex < 60 then
      oneWeek1.set 1 "Tue: 1) Jaw Mobility Drill [TIME 120s x 2] 2) Tongue Clicks [REPS 25 x 3] 3) Zone-2 Cardio [TIME 900s x 2] 4) Skin Recovery Block [TIME 300s x 1] + hydration/SPF focus."
    else oneWeek1
  { oneWeek := oneWeek2, oneMonth := oneMonth1 }

/-- `buildFaceAnalysis` (`src/lib/longevity.ts` lines 234-373). -/
def buildFaceAnalysis (inp : AnalysisInput) : FaceAnalyzeResponse :=
  let seedBase := seedBaseOf inp "face"
  let computed := pickComputed inp.today inp.healthRecord
  let healthScore : ℚ := toNumberL (lookupKey "healthScore" computed) 70
  let jawlineIndex := clampZ
    (jsRound ((scoreFromSeed (seedBase ++ "|jawline") 40 94 : ℚ) * 0.75 + healthScore * 0.25))
    30 98
  let skinClarityIndex := clampZ
    (jsRound ((scoreFromSeed (seedBase ++ "|skin") 42 95 : ℚ) * 0.72 + healthScore * 0.28))
    30 98
  let potential := clampZ
    (jsRound ((jawlineIndex : ℚ) * 0.4 + (skinClarityIndex : ℚ) * 0.35 + healthScore * 0.25))
    30 99
  let eyeArea := clampZ
    (jsRound ((scoreFromSeed (seedBase ++ "|eye") 38 94 : ℚ) * 0.7 + (skinClarityIndex : ℚ) * 0.3))
    30 99
  let cheekbones := clampZ
    (jsRound ((scoreFromSeed (seedBase ++ "|cheek") 40 95 : ℚ) * 0.7 + (jawlineIndex : ℚ) * 0.3))
    30 99
  let symmetry := clampZ
    (jsRound ((scoreFromSeed (seedBase ++ "|sym") 40 94 : ℚ) * 0.65 + (potential : ℚ) * 0.35))
    30 99
  let facialThirds := clampZ
    (jsRound ((scoreFromSeed (seedBase ++ "|thirds") 38 93 : ℚ) * 0.65 + (symmetry : ℚ) * 0.35))
    30 99
  let skinQuality := clampZ
    (jsRound ((scoreFromSeed (seedBase ++ "|skinq") 38 95 : ℚ) * 0.6 + (skinClarityIndex : ℚ) * 0.4))
    30 99
  let overallScore := clampZ
    (jsRound ((potential : ℚ) * 0.2 + (jawlineIndex : ℚ) * 0.18 + (eyeArea : ℚ) * 0.12
      + (cheekbones : ℚ) * 0.12 + (symmetry : ℚ) * 0.13 + (facialThirds : ℚ) * 0.1
      + (skinQuality : ℚ) * 0.15))
    0 100
  let combined := jsRound (((jawlineIndex + skinClarityIndex : ℤ) : ℚ) / 2)
  let faceFatEstimate := faceFatOfComposite combined
  let skinSuggestions :=
    ["Use daily SPF in the morning and keep evening cleansing consistent.",
     "Push sleep consistency to improve next-day skin clarity.",
     "Keep high-sugar meals away from late evening windows."]
  let jawlineSuggestions :=
    ["Keep hydration and sodium stable to reduce facial water retention.",
     "Add neck/posture alignment drills 5-10 minutes daily.",
     "Prioritize slow body-fat reduction with high-protein meals."]
  let trainingSuggestions :=
    ["Do 3-4 weekly strength sessions with progressive overload.",
     "Add 2 zone-2 cardio sessions and 1 short interval session.",
     "Target 8k-12k daily steps on non-training days."]
  let routineSuggestions :=
    ["Morning: sunlight + hydration + protein-first meal.",
     "Afternoon: movement break every 90 minutes.",
     "Evening: caffeine cutoff and fixed wind-down routine."]
  let notes :=
    ["Placeholder vision scoring was generated deterministically from your current context.",
     "Overall " ++ toString overallScore ++ "/100. Jawline " ++ toString jawlineIndex
       ++ "/100, skin clarity " ++ toString skinClarityIndex ++ "/100.",
     "Estimated facial fat tendency: " ++ faceFatEstimate.label ++ "."]
  { jawlineIndex := jawlineIndex
    skinClarityIndex := skinClarityIndex
    faceFatEstimate := faceFatEstimate
    overallScore := overallScore
    measurements :=
      { potential := potential
        jawline := jawlineIndex
        eyeArea := eyeArea
        cheekbones := cheekbones
        symmetry := symmetry
        facialThirds := facialThirds
        skinQuality := skinQuality }
    suggestions :=
      { skin := skinSuggestions
        jawline := jawlineSuggestions
        training := trainingSuggestions
        routine := routineSuggestions }
    exercisePlan := buildExercisePlan jawlineIndex skinClarityIndex faceFatEstimate healthScore
    notes := notes }

/-- `buildBodyAnalysis` (`src/lib/longevity.ts` lines 375-413). -/
def buildBodyAnalysis (inp : AnalysisInput) : BodyAnalyzeResponse :=
  let seedBase := seedBaseOf inp "body"
  let postureScore := scoreFromSeed (seedBase ++ "|posture") 40 93
  let muscleDefinitionScore := scoreFromSeed (seedBase ++ "|muscle") 35 91
  let bodySignal := jsRound (((100 - postureScore + (100 - muscleDefinitionScore) : ℤ) : ℚ) / 2)
  let bodyFatRangeEstimate :=
    if bodySignal < 25 then "10-16%"
    else if bodySignal < 45 then "14-20%"
    else if bodySignal < 65 then "18-24%"
    else "22-30%"
  let notes :=
    ["Placeholder body analysis was generated deterministically from current input context.",
     "Posture score: " ++ toString postureScore ++ "/100, muscle definition score: "
       ++ toString muscleDefinitionScore ++ "/100.",
     "Estimated body fat range: " ++ bodyFatRangeEstimate ++ "."]
  { bodyFatRangeEstimate := bodyFatRangeEstimate
    postureScore := postureScore
    muscleDefinitionScore := muscleDefinitionScore
    notes := notes }

/-! ## Claims C3 and C10 -/

theorem clampZ_bounds (v lo hi : ℤ) (h : lo ≤ hi) :
    lo ≤ clampZ v lo hi ∧ clampZ v lo hi ≤ hi :=
  ⟨le_max_left _ _, max_le h (min_le_left _ _)⟩

theorem scoreFromSeed_bounds (seed : String) (lo hi : ℤ) (h : lo ≤ hi) :
    lo ≤ scoreFromSeed seed lo hi ∧ scoreFromSeed seed lo hi ≤ hi :=
  ⟨le_max_left _ _, max_le h (min_le_left _ _)⟩

/-- Claim C3 (confirmed): `faceFatEstimate` is exactly the threshold
classification of the composite `Math.round((jawlineIndex + skinClarityIndex)/2)`
of the returned indices: `"low"` iff the composite is at least 72, `"medium"`
iff it lies in `[52, 72)`, `"high"` iff it is below 52; in particular the
boundary composites 71, 72, 52, 51 map to medium, low, medium, high. -/
theorem faceFatEstimate_thresholds (inp : AnalysisInput) :
    (buildFaceAnalysis inp).faceFatEstimate
        = faceFatOfComposite (jsRound ((((buildFaceAnalysis inp).jawlineIndex
            + (buildFaceAnalysis inp).skinClarityIndex : ℤ) : ℚ) / 2))
    ∧ (∀ c : ℤ, (faceFatOfComposite c = .low ↔ 72 ≤ c)
        ∧ (faceFatOfComposite c = .medium ↔ 52 ≤ c ∧ c < 72)
        ∧ (faceFatOfComposite c = .high ↔ c < 52))
    ∧ faceFatOfComposite 71 = .medium
    ∧ faceFatOfComposite 72 = .low
    ∧ faceFatOfComposite 52 = .medium
    ∧ faceFatOfComposite 51 = .high := by
  refine ⟨rfl, ?_, by decide, by decide, by decide, by decide⟩
  intro c
  by_cases h1 : 72 ≤ c
  · refine ⟨?_, ?_, ?_⟩ <;> simp [faceFatOfComposite, h1] <;> omega
  · by_cases h2 : 52 ≤ c
    · refine ⟨?_, ?_, ?_⟩ <;> simp [faceFatOfComposite, h1, h2] <;> omega
    · refine ⟨?_, ?_, ?_⟩ <;> simp [faceFatOfComposite, h1, h2] <;> omega

/-- Claim C10 (confirmed): all numeric scores of the placeholder generators
lie in their fixed clamped ranges, for every input. -/
theorem placeholder_scores_bounded (inp : AnalysisInput) :
    (30 ≤ (buildFaceAnalysis inp).jawlineIndex ∧ (buildFaceAnalysis inp).jawlineIndex ≤ 98)
    ∧ (30 ≤ (buildFaceAnalysis inp).skinClarityIndex
        ∧ (buildFaceAnalysis inp).skinClarityIndex ≤ 98)
    ∧ (30 ≤ (buildFaceAnalysis inp).measurements.potential
        ∧ (buildFaceAnalysis inp).measurements.potential ≤ 99)
    ∧ (30 ≤ (buildFaceAnalysis inp).measurements.jawline
        ∧ (buildFaceAnalysis inp).measurements.jawline ≤ 99)
    ∧ (30 ≤ (buildFaceAnalysis inp).measurements.eyeArea
        ∧ (buildFaceAnalysis inp).measurements.eyeArea ≤ 99)
    ∧ (30 ≤ (buildFaceAnalysis inp).measurements.cheekbones
        ∧ (buildFaceAnalysis inp).measurements.cheekbones ≤ 99)
    ∧ (30 ≤ (buildFaceAnalysis inp).measurements.symmetry
        ∧ (buildFaceAnalysis inp).measurements.symmetry ≤ 99)
    ∧ (30 ≤ (buildFaceAnalysis inp).measurements.facialThirds
        ∧ (buildFaceAnalysis inp).measurements.facialThirds ≤ 99)
    ∧ (30 ≤ (buildFaceAnalysis inp).measurements.skinQuality
        ∧ (buildFaceAnalysis inp).measurements.skinQuality ≤ 99)
    ∧ (0 ≤ (buildFaceAnalysis inp).overallScore ∧ (buildFaceAnalysis inp).overallScore ≤ 100)
    ∧ (40 ≤ (buildBodyAnalysis inp).postureScore ∧ (buildBodyAnalysis inp).postureScore ≤ 93)
    ∧ (35 ≤ (buildBodyAnalysis inp).muscleDefinitionScore
        ∧ (buildBodyAnalysis inp).muscleDefinitionScore ≤ 91) := by
  refine ⟨?_, ?_, ?_, ?_, ?_, ?_, ?_, ?_, ?_, ?_, ?_, ?_⟩
  · exact clampZ_bounds _ 30 98 (by decide)
  · exact clampZ_bounds _ 30 98 (by decide)
  · exact clampZ_bounds _ 30 99 (by decide)
  · have h := clampZ_bounds
      (jsRound ((scoreFromSeed (seedBaseOf inp "face" ++ "|jawline") 40 94 : ℚ) * 0.75
        + toNumberL (lookupKey "healthScore" (pickComputed inp.today inp.healthRecord)) 70 * 0.25))
      30 98 (by decide)
    exact ⟨le_trans (by decide) h.1, le_trans h.2 (by decide)⟩
  · exact clampZ_bounds _ 30 99 (by decide)
  · exact clampZ_bounds _ 30 99 (by decide)
  · exact clampZ_bounds _ 30 99 (by decide)
  · exact clampZ_bounds _ 30 99 (by decide)
  · exact clampZ_bounds _ 30 99 (by decide)
  · exact clampZ_bounds _ 0 100 (by decide)
  · exact scoreFromSeed_bounds _ 40 93 (by decide)
  · exact scoreFromSeed_bounds _ 35 91 (by decide)

/-! ## JSON serialization and parsing (`JSON.stringify` / `JSON.parse`)

`extractJson` (shared helper, `src/api/new.ts` lines 92-107 and
`src/unnamed/part_000` lines 34-52) recovers a JSON value from free text via
a fenced-code-block regex and a brace-slice fallback, each fed to
`JSON.parse`.  The serializer below is the standard compact `JSON.stringify`
(insertion-order keys — distinct from `stableStringify`'s sorted keys).
The parser is fuel-structural so concrete runs reduce in the kernel; number
literals cover the integer/decimal forms (no exponents — out of scope), and
it does not reject redundant leading zeros, which `JSON.parse` would. -/

mutual

/-- Compact `JSON.stringify`, as a character list. -/
def serChars : JVal → List Char
  | .null => "null".data
  | .bool true => "true".data
  | .bool false => "false".data
  | .num q => numToChars q
  | .str s => jsonQuoteChars s
  | .arr xs => '[' :: (serElems xs ++ [']'])
  | .obj es => '\x7b' :: (serMembers es ++ ['\x7d'])

/-- Comma-joined serialized array elements. -/
def serElems : List JVal → List Char
  | [] => []
  | [x] => serChars x
  | x :: y :: xs => serChars x ++ ',' :: serElems (y :: xs)

/-- Comma-joined serialized object members. -/
def serMembers : List (String × JVal) → List Char
  | [] => []
  | [(k, v)] => jsonQuoteChars k ++ ':' :: serChars v
  | (k, v) :: e :: es => jsonQuoteChars k ++ ':' :: serChars v ++ ',' :: serMembers (e :: es)

end

/-- `JSON.stringify` on the model values. -/
def jsonStringify (v : JVal) : String := ⟨serChars v⟩

mutual

/-- Node-count measure used for parser fuel accounting. -/
def jsize : JVal → ℕ
  | .null => 1
  | .bool _ => 1
  | .num _ => 1
  | .str _ => 1
  | .arr xs => 1 + jsizeL xs
  | .obj es => 1 + jsizeM es

def jsizeL : List JVal → ℕ
  | [] => 0
  | x :: xs => 1 + jsize x + jsizeL xs

def jsizeM : List (String × JVal) → ℕ
  | [] => 0
  | (_, v) :: es => 1 + jsize v + jsizeM es

end

mutual

/-- Do all numeric leaves hold integers?  (The round-trip statement is scoped
to integer numerics; JS float formatting is out of the embedding's scope.) -/
def intLeaves : JVal → Prop
  | .num q => q.den = 1
  | .arr xs => intLeavesL xs
  | .obj es => intLeavesM es
  | _ => True

def intLeavesL : List JVal → Prop
  | [] => True
  | x :: xs => intLeaves x ∧ intLeavesL xs

def intLeavesM : List (String × JVal) → Prop
  | [] => True
  | (_, v) :: es => intLeaves v ∧ intLeavesM es

end

/-- JSON whitespace accepted between tokens by `JSON.parse`. -/
def isJsonWs (c : Char) : Bool :=
  c = ' ' || c = '\t' || c = '\n' || c = '\r'

def skipWsChars (cs : List Char) : List Char := cs.dropWhile isJsonWs

/-- Hex digit value (for `\uXXXX` escapes). -/
def hexVal (c : Char) : Option ℕ :=
  if isDigitChar c then some (c.toNat - 48)
  else if decide (97 ≤ c.toNat) && decide (c.toNat ≤ 102) then some (c.toNat - 87)
  else if decide (65 ≤ c.toNat) && decide (c.toNat ≤ 70) then some (c.toNat - 55)
  else none

/-- JSON string body (after the opening quote): literal characters above
`0x1f`, standard escapes, `\uXXXX` (lone surrogates are out of scope of the
`Char` model).  Returns the decoded characters and the input after the
closing quote. -/
def escCont (c : Char) : Option Char :=
  if c = '"' then some '"'
  else if c = '\\' then some '\\'
  else if c = '/' then some '/'
  else if c = 'n' then some '\n'
  else if c = 'r' then some '\r'
  else if c = 't' then some '\t'
  else if c = 'b' then some '\x08'
  else if c = 'f' then some '\x0c'
  else none

def parseStrBody : ℕ → List Char → Option (List Char × List Char)
  | 0, _ => none
  | _ + 1, [] => none
  | fuel + 1, c :: rest =>
      if c = '"' then some ([], rest)
      else if c = '\\' then
        match rest with
        | [] => none
        | e :: r =>
            if e = 'u' then
              match r with
              | h1 :: h2 :: h3 :: h4 :: r2 =>
                  match hexVal h1, hexVal h2, hexVal h3, hexVal h4 with
                  | some a, some b, some c2, some d =>
                      (parseStrBody fuel r2).map
                        (fun p => (Char.ofNat (a * 4096 + b * 256 + c2 * 16 + d) :: p.1, p.2))
                  | _, _, _, _ => none
              | _ => none
            else
              match escCont e with
              | some c2 => (parseStrBody fuel r).map (fun p => (c2 :: p.1, p.2))
              | none => none
      else if c.toNat < 32 then none
      else (parseStrBody fuel rest).map (fun p => (c :: p.1, p.2))

/-- Unsigned JSON number: digits, optional fraction (exponents out of scope). -/
def parseJsonNum (cs : List Char) : Option (ℚ × List Char) :=
  let ds := cs.takeWhile isDigitChar
  if ds.isEmpty then none
  else
    match cs.dropWhile isDigitChar with
    | [] => some (((digitsToNat ds 0 : ℕ) : ℚ), [])
    | c :: rest2 =>
        if c = '.' then
          let fs := rest2.takeWhile isDigitChar
          if fs.isEmpty then none
          else
            some (((digitsToNat ds 0 : ℕ) : ℚ)
                + ((digitsToNat fs 0 : ℕ) : ℚ) / ((10 : ℚ) ^ fs.length),
              rest2.dropWhile isDigitChar)
        else some (((digitsToNat ds 0 : ℕ) : ℚ), c :: rest2)

mutual

/-- Recursive-descent `JSON.parse` value parser (fuel-structural). -/
def parseVal : ℕ → List Char → Option (JVal × List Char)
  | 0, _ => none
  | fuel + 1, cs0 =>
      match skipWsChars cs0 with
      | [] => none
      | c :: rest =>
          if c = 'n' then
            match rest with
            | 'u' :: 'l' :: 'l' :: r => some (.null, r)
            | _ => none
          else if c = 't' then
            match rest with
            | 'r' :: 'u' :: 'e' :: r => some (.bool true, r)
            | _ => none
          else if c = 'f' then
            match rest with
            | 'a' :: 'l' :: 's' :: 'e' :: r => some (.bool false, r)
            | _ => none
          else if c = '"' then
            (parseStrBody (rest.length + 1) rest).map (fun p => (.str ⟨p.1⟩, p.2))
          else if c = '-' then (parseJsonNum rest).map (fun p => (.num (-p.1), p.2))
          else if c = '[' then
            match skipWsChars rest with
            | [] => none
            | c2 :: r2 =>
                if c2 = ']' then some (.arr [], r2)
                else (parseArrLoop fuel (c2 :: r2)).map (fun p => (.arr p.1, p.2))
          else if c = '\x7b' then
            match skipWsChars rest with
            | [] => none
            | c2 :: r2 =>
                if c2 = '\x7d' then some (.obj [], r2)
                else (parseObjLoop fuel (c2 :: r2)).map (fun p => (.obj p.1, p.2))
          else if isDigitChar c then
            (parseJsonNum (c :: rest)).map (fun p => (.num p.1, p.2))
          else none

/-- Array elements after the opening bracket (non-empty case). -/
def parseArrLoop : ℕ → List Char → Option (List JVal × List Char)
  | 0, _ => none
  | fuel + 1, cs =>
      match parseVal fuel cs with
      | none => none
      | some (v, rest) =>
          match skipWsChars rest with
          | [] => none
          | c :: rest2 =>
              if c = ',' then (parseArrLoop fuel rest2).map (fun p => (v :: p.1, p.2))
              else if c = ']' then some ([v], rest2)
              else none

/-- Object members after the opening brace (non-empty case). -/
def parseObjLoop : ℕ → List Char → Option (List (String × JVal) × List Char)
  | 0, _ => none
  | fuel + 1, cs =>
      match skipWsChars cs with
      | [] => none
      | c0 :: rest =>
          if c0 = '"' then
            match parseStrBody (rest.length + 1) rest with
            | none => none
            | some (k, rest2) =>
                match skipWsChars rest2 with
                | [] => none
                | c1 :: rest3 =>
                    if c1 = ':' then
                      match parseVal fuel rest3 with
                      | none => none
                      | some (v, rest4) =>
                          match skipWsChars rest4 with
                          | [] => none
                          | c2 :: rest5 =>
                              if c2 = ',' then
                                (parseObjLoop fuel rest5).map
                                  (fun p => ((⟨k⟩, v) :: p.1, p.2))
                              else if c2 = '\x7d' then some ([(⟨k⟩, v)], rest5)
                              else none
                    else none
          else none

end

/-! Non-recursive views of the parser used to drive equational reasoning:
each names an intermediate state of the original parser's dispatch, and a
step lemma below rewrites the parser into it. -/

/-- Dispatch on the first non-whitespace character of a value. -/
def parseValHead (fuel : ℕ) (c : Char) (rest : List Char) : Option (JVal × List Char) :=
  if c = 'n' then
    match rest with
    | 'u' :: 'l' :: 'l' :: r => some (.null, r)
    | _ => none
  else if c = 't' then
    match rest with
    | 'r' :: 'u' :: 'e' :: r => some (.bool true, r)
    | _ => none
  else if c = 'f' then
    match rest with
    | 'a' :: 'l' :: 's' :: 'e' :: r => some (.bool false, r)
    | _ => none
  else if c = '"' then
    (parseStrBody (rest.length + 1) rest).map (fun p => (.str ⟨p.1⟩, p.2))
  else if c = '-' then (parseJsonNum rest).map (fun p => (.num (-p.1), p.2))
  else if c = '[' then
    match skipWsChars rest with
    | [] => none
    | c2 :: r2 =>
        if c2 = ']' then some (.arr [], r2)
        else (parseArrLoop fuel (c2 :: r2)).map (fun p => (.arr p.1, p.2))
  else if c = '\x7b' then
    match skipWsChars rest with
    | [] => none
    | c2 :: r2 =>
        if c2 = '\x7d' then some (.obj [], r2)
        else (parseObjLoop fuel (c2 :: r2)).map (fun p => (.obj p.1, p.2))
  else if isDigitChar c then
    (parseJsonNum (c :: rest)).map (fun p => (.num p.1, p.2))
  else none

/-- After one array element: comma to continue or bracket to close. -/
def arrAfterVal (fuel : ℕ) (v : JVal) (rest : List Char) : Option (List JVal × List Char) :=
  match skipWsChars rest with
  | [] => none
  | c :: rest2 =>
      if c = ',' then (parseArrLoop fuel rest2).map (fun p => (v :: p.1, p.2))
      else if c = ']' then some ([v], rest2)
      else none

/-- After one member: comma to continue or brace to close. -/
def objAfterVal (fuel : ℕ) (k : List Char) (v : JVal) (rest4 : List Char) :
    Option (List (String × JVal) × List Char) :=
  match skipWsChars rest4 with
  | [] => none
  | c2 :: rest5 =>
      if c2 = ',' then (parseObjLoop fuel rest5).map (fun p => ((⟨k⟩, v) :: p.1, p.2))
      else if c2 = '\x7d' then some ([(⟨k⟩, v)], rest5)
      else none

/-- After a member's colon: parse the value. -/
def objAfterColon (fuel : ℕ) (k : List Char) (rest3 : List Char) :
    Option (List (String × JVal) × List Char) :=
  match parseVal fuel rest3 with
  | none => none
  | some (v, rest4) => objAfterVal fuel k v rest4

/-- After a member key: expect a colon. -/
def objAfterKey (fuel : ℕ) (k : List Char) (rest2 : List Char) :
    Option (List (String × JVal) × List Char) :=
  match skipWsChars rest2 with
  | [] => none
  | c1 :: rest3 =>
      if c1 = ':' then objAfterColon fuel k rest3
      else none

/-- After a member's opening key quote: decode the key. -/
def objAfterKeyOpen (fuel : ℕ) (restk : List Char) : Option (List (String × JVal) × List Char) :=
  match parseStrBody (restk.length + 1) restk with
  | none => none
  | some (k, rest2) => objAfterKey fuel k rest2

/-- Full-input `JSON.parse` on a character list. -/
def jsonParseChars (cs : List Char) : Option JVal :=
  match parseVal (cs.length + 1) cs with
  | some (v, rest) => if (skipWsChars rest).isEmpty then some v else none
  | none => none

def jsonParse (s : String) : Option JVal := jsonParseChars s.data

/-! ## `extractJson` (fenced-block regex, then brace slice) -/

def tripleTick : List Char := "```".data

/-- Case-insensitive prefix test against a lower-case pattern. -/
def startsWithInsensitive : List Char → List Char → Bool
  | _, [] => true
  | [], _ :: _ => false
  | h :: hs, p :: ps => h.toLower = p && startsWithInsensitive hs ps

/-- Characters strictly before the first occurrence of three backticks. -/
def beforeTriple : List Char → Option (List Char)
  | [] => none
  | c :: t =>
      if startsWithChars (c :: t) tripleTick then some []
      else (beforeTriple t).map (fun r => c :: r)

/-- The `\s*([\s\S]*?)\s*` + closing-fence part of the fence regex: skip
leading whitespace greedily, lazily take content up to the first closing
fence, giving trailing whitespace to the `\s*` before the fence. -/
def fenceClose (cs : List Char) : Option (List Char) :=
  (beforeTriple (cs.dropWhile isWsChar)).map dropWsRight

/-- Try a fence match at an opening fence (input starts just after three
backticks): optional case-insensitive `json` tag, greedily consumed first,
falling back to not consuming it. -/
def fenceTryAt (cs : List Char) : Option (List Char) :=
  if startsWithInsensitive cs "json".data then
    match fenceClose (cs.drop 4) with
    | some inner => some inner
    | none => fenceClose cs
  else fenceClose cs

/-- Leftmost match of ```` /```(?:json)?\s*([\s\S]*?)\s*```/i ````, returning
the capture group. -/
def fenceCapture : List Char → Option (List Char)
  | [] => none
  | c :: t =>
      if startsWithChars (c :: t) tripleTick then
        match fenceTryAt ((c :: t).drop 3) with
        | some inner => some inner
        | none => fenceCapture t
      else fenceCapture t

/-- First match of `/\{[\s\S]*\}/`: from the first `\x7b` through the last
`\x7d` after it. -/
def rawBraceSlice (cs : List Char) : Option (List Char) :=
  let cs1 := cs.dropWhile (fun c => !(c = '\x7b'))
  if cs1.isEmpty then none
  else
    let r := cs1.reverse.dropWhile (fun c => !(c = '\x7d'))
    if r.isEmpty then none else some r.reverse

/-- `extractJson(text)`: `null` for empty text; try the fenced block (an
empty capture group is falsy and skipped, a parse failure falls through);
then the brace slice; else `null`. -/
def extractJson (text : String) : Option JVal :=
  if text = "" then none
  else
    let cs := text.data
    let fenced : Option JVal :=
      match fenceCapture cs with
      | some inner => if inner.isEmpty then none else jsonParseChars inner
      | none => none
    match fenced with
    | some v => some v
    | none =>
        match rawBraceSlice cs with
        | some slice => jsonParseChars slice
        | none => none

/-! ## Round-trip lemmas: digits and numbers -/

def headIsDigit : List Char → Bool
  | [] => false
  | c :: _ => isDigitChar c

/-- Boundary after a serialized number: end of input, or a character that
continues neither the digit run nor a fraction. -/
def numBoundaryOk : List Char → Prop
  | [] => True
  | c :: _ => isDigitChar c = false ∧ c ≠ '.'

theorem isDigitChar_digitChar {d : ℕ} (h : d < 10) : isDigitChar (digitChar d) = true := by
  interval_cases d <;> rfl

theorem digitVal_digitChar {d : ℕ} (h : d < 10) : digitVal (digitChar d) = d := by
  interval_cases d <;> rfl

theorem digitsToNat_append (a b : List Char) (acc : ℕ) :
    digitsToNat (a ++ b) acc = digitsToNat b (digitsToNat a acc) := by
  induction a generalizing acc with
  | nil => rfl
  | cons c cs ih => simp [digitsToNat, ih]

theorem natToCharsAux_digits :
    ∀ fuel n, n < fuel → ∀ c ∈ natToCharsAux fuel n, isDigitChar c = true := by
  intro fuel
  induction fuel with
  | zero => omega
  | succ f ih =>
      intro n hn c hc
      by_cases h : n < 10
      · simp [natToCharsAux, h] at hc
        subst hc
        exact isDigitChar_digitChar h
      · simp only [natToCharsAux, if_neg h, List.mem_append, List.mem_singleton] at hc
        rcases hc with hc | hc
        · exact ih (n / 10) (by omega) c hc
        · subst hc
          exact isDigitChar_digitChar (Nat.mod_lt _ (by omega))

theorem natToCharsAux_ne_nil (fuel n : ℕ) (h : n < fuel) : natToCharsAux fuel n ≠ [] := by
  cases fuel with
  | zero => omega
  | succ f =>
      by_cases h2 : n < 10 <;> simp [natToCharsAux, h2]

theorem digitsToNat_natToCharsAux :
    ∀ fuel n, n < fuel → digitsToNat (natToCharsAux fuel n) 0 = n := by
  intro fuel
  induction fuel with
  | zero => omega
  | succ f ih =>
      intro n hn
      by_cases h : n < 10
      · simp [natToCharsAux, h, digitsToNat, digitVal_digitChar h]
      · rw [natToCharsAux, if_neg h, digitsToNat_append, ih (n / 10) (by omega)]
        simp [digitsToNat, digitVal_digitChar (Nat.mod_lt n (by omega))]
        omega

theorem natToChars_digits {n : ℕ} : ∀ c ∈ natToChars n, isDigitChar c = true :=
  natToCharsAux_digits (n + 1) n (Nat.lt_succ_self n)

theorem natToChars_ne_nil (n : ℕ) : natToChars n ≠ [] :=
  natToCharsAux_ne_nil (n + 1) n (Nat.lt_succ_self n)

theorem digitsToNat_natToChars (n : ℕ) : digitsToNat (natToChars n) 0 = n :=
  digitsToNat_natToCharsAux (n + 1) n (Nat.lt_succ_self n)

theorem takeWhile_all_append {p : Char → Bool} :
    ∀ (ds rest : List Char), (∀ c ∈ ds, p c = true) →
      (match rest with | [] => True | c :: _ => p c = false) →
      (ds ++ rest).takeWhile p = ds ∧ (ds ++ rest).dropWhile p = rest := by
  intro ds rest hds hrest
  induction ds with
  | nil =>
      cases rest with
      | nil => simp
      | cons c t => simpa [List.takeWhile, List.dropWhile] using by simp [hrest]
  | cons d ds ih =>
      have hd := hds d (by simp)
      have := ih (fun c hc => hds c (by simp [hc]))
      simp [List.takeWhile, List.dropWhile, hd, this.1, this.2]

theorem parseJsonNum_nat (n : ℕ) (rest : List Char) (hb : numBoundaryOk rest) :
    parseJsonNum (natToChars n ++ rest) = some ((n : ℚ), rest) := by
  have hsplit := takeWhile_all_append (p := isDigitChar) (natToChars n) rest
    (fun c hc => natToChars_digits c hc)
    (by cases rest with
        | nil => trivial
        | cons c t => exact hb.1)
  have hne : (natToChars n).isEmpty = false := by
    cases h : natToChars n with
    | nil => exact absurd h (natToChars_ne_nil n)
    | cons a b => rfl
  rw [parseJsonNum]
  simp only [hsplit.1, hsplit.2, hne, Bool.false_eq_true, if_false]
  cases rest with
  | nil => simp [digitsToNat_natToChars]
  | cons c t =>
      simp only [if_neg (show ¬ c = '.' from hb.2), digitsToNat_natToChars]

/-! ## Round-trip lemmas: characters and strings -/

theorem char_ne_of_toNat {c d : Char} (h : c.toNat ≠ d.toNat) : c ≠ d :=
  fun he => h (he ▸ rfl)

theorem isDigitChar_toNat {c : Char} (h : isDigitChar c = true) :
    48 ≤ c.toNat ∧ c.toNat ≤ 57 := by
  simpa [isDigitChar] using h

/-- A digit head selects the number branch of the parser dispatch. -/
theorem digit_head_facts {c : Char} (h : isDigitChar c = true) :
    c ≠ 'n' ∧ c ≠ 't' ∧ c ≠ 'f' ∧ c ≠ '"' ∧ c ≠ '-' ∧ c ≠ '[' ∧ c ≠ '\x7b'
    ∧ c ≠ ']' ∧ c ≠ '\x7d' ∧ isJsonWs c = false := by
  obtain ⟨h1, h2⟩ := isDigitChar_toNat h
  refine ⟨char_ne_of_toNat (by rw [show ('n').toNat = 110 from rfl]; omega),
    char_ne_of_toNat (by rw [show ('t').toNat = 116 from rfl]; omega),
    char_ne_of_toNat (by rw [show ('f').toNat = 102 from rfl]; omega),
    char_ne_of_toNat (by rw [show ('"').toNat = 34 from rfl]; omega),
    char_ne_of_toNat (by rw [show ('-').toNat = 45 from rfl]; omega),
    char_ne_of_toNat (by rw [show ('[').toNat = 91 from rfl]; omega),
    char_ne_of_toNat (by rw [show ('\x7b').toNat = 123 from rfl]; omega),
    char_ne_of_toNat (by rw [show (']').toNat = 93 from rfl]; omega),
    char_ne_of_toNat (by rw [show ('\x7d').toNat = 125 from rfl]; omega), ?_⟩
  have hws : ∀ d : Char, isJsonWs d
      = (decide (d = ' ') || decide (d = '\t') || decide (d = '\n') || decide (d = '\r')) := by
    intro d
    rfl
  rw [hws]
  have e1 : c ≠ ' ' := char_ne_of_toNat (by rw [show (' ').toNat = 32 from rfl]; omega)
  have e2 : c ≠ '\t' := char_ne_of_toNat (by rw [show ('\t').toNat = 9 from rfl]; omega)
  have e3 : c ≠ '\n' := char_ne_of_toNat (by rw [show ('\n').toNat = 10 from rfl]; omega)
  have e4 : c ≠ '\r' := char_ne_of_toNat (by rw [show ('\r').toNat = 13 from rfl]; omega)
  simp [e1, e2, e3, e4]

theorem skipWs_cons_not_ws {c : Char} {t : List Char} (h : isJsonWs c = false) :
    skipWsChars (c :: t) = c :: t := by
  simp [skipWsChars, List.dropWhile_cons, h]

theorem parseVal_step (f : ℕ) (c : Char) {t : List Char} (h : isJsonWs c = false) :
    parseVal (f + 1) (c :: t) = parseValHead f c t := by
  unfold parseVal
  rw [skipWs_cons_not_ws h]
  rfl

theorem parseValHead_quote (f : ℕ) (rest : List Char) :
    parseValHead f '"' rest
      = (parseStrBody (rest.length + 1) rest).map (fun p => (.str ⟨p.1⟩, p.2)) := rfl

theorem parseValHead_minus (f : ℕ) (rest : List Char) :
    parseValHead f '-' rest = (parseJsonNum rest).map (fun p => (.num (-p.1), p.2)) := rfl

theorem parseValHead_digit (f : ℕ) {c : Char} {rest : List Char} (h : isDigitChar c = true) :
    parseValHead f c rest = (parseJsonNum (c :: rest)).map (fun p => (.num p.1, p.2)) := by
  have hf := digit_head_facts h
  unfold parseValHead
  rw [if_neg hf.1, if_neg hf.2.1, if_neg hf.2.2.1, if_neg hf.2.2.2.1, if_neg hf.2.2.2.2.1,
    if_neg hf.2.2.2.2.2.1, if_neg hf.2.2.2.2.2.2.1, if_pos h]

theorem parseValHead_lbracket_cons (f : ℕ) {rest : List Char} {c2 : Char} {r2 : List Char}
    (h : skipWsChars rest = c2 :: r2) :
    parseValHead f '[' rest =
      (if c2 = ']' then some (.arr [], r2)
       else (parseArrLoop f (c2 :: r2)).map (fun p => (.arr p.1, p.2))) := by
  unfold parseValHead
  rw [h]
  rfl

theorem parseValHead_lbrace_cons (f : ℕ) {rest : List Char} {c2 : Char} {r2 : List Char}
    (h : skipWsChars rest = c2 :: r2) :
    parseValHead f '\x7b' rest =
      (if c2 = '\x7d' then some (.obj [], r2)
       else (parseObjLoop f (c2 :: r2)).map (fun p => (.obj p.1, p.2))) := by
  unfold parseValHead
  rw [h]
  rfl

theorem parseArrLoop_step {cs : List Char} {v : JVal} {rest : List Char} (f : ℕ)
    (h : parseVal f cs = some (v, rest)) :
    parseArrLoop (f + 1) cs = arrAfterVal f v rest := by
  unfold parseArrLoop
  rw [h]
  rfl

theorem arrAfterVal_cons (f : ℕ) (v : JVal) (c : Char) (r2 : List Char)
    (h : isJsonWs c = false) :
    arrAfterVal f v (c :: r2) =
      (if c = ',' then (parseArrLoop f r2).map (fun p => (v :: p.1, p.2))
       else if c = ']' then some ([v], r2)
       else none) := by
  unfold arrAfterVal
  rw [skipWs_cons_not_ws h]

theorem parseObjLoop_step (f : ℕ) (c0 : Char) {rest : List Char} (h : isJsonWs c0 = false) :
    parseObjLoop (f + 1) (c0 :: rest)
      = (if c0 = '"' then objAfterKeyOpen f rest else none) := by
  unfold parseObjLoop
  rw [skipWs_cons_not_ws h]
  rfl

theorem objAfterKeyOpen_step {restk k rest2 : List Char} (f : ℕ)
    (h : parseStrBody (restk.length + 1) restk = some (k, rest2)) :
    objAfterKeyOpen f restk = objAfterKey f k rest2 := by
  unfold objAfterKeyOpen
  rw [h]

theorem objAfterKey_cons (f : ℕ) (k : List Char) (c1 : Char) (rest3 : List Char)
    (h : isJsonWs c1 = false) :
    objAfterKey f k (c1 :: rest3) = (if c1 = ':' then objAfterColon f k rest3 else none) := by
  unfold objAfterKey
  rw [skipWs_cons_not_ws h]

theorem objAfterColon_step {rest3 : List Char} {v : JVal} {rest4 : List Char} (f : ℕ)
    (k : List Char) (h : parseVal f rest3 = some (v, rest4)) :
    objAfterColon f k rest3 = objAfterVal f k v rest4 := by
  unfold objAfterColon
  rw [h]

theorem objAfterVal_cons (f : ℕ) (k : List Char) (v : JVal) (c2 : Char) (rest5 : List Char)
    (h : isJsonWs c2 = false) :
    objAfterVal f k v (c2 :: rest5) =
      (if c2 = ',' then (parseObjLoop f rest5).map (fun p => ((⟨k⟩, v) :: p.1, p.2))
       else if c2 = '\x7d' then some ([(⟨k⟩, v)], rest5)
       else none) := by
  unfold objAfterVal
  rw [skipWs_cons_not_ws h]

theorem hexVal_hexChar {n : ℕ} (h : n < 16) : hexVal (hexChar n) = some n := by
  interval_cases n <;> rfl

theorem charOfNat_toNat (c : Char) : Char.ofNat c.toNat = c := Char.ofNat_toNat c

theorem jsonEscapeChar_len (c : Char) : 1 ≤ (jsonEscapeChar c).length := by
  unfold jsonEscapeChar
  split_ifs <;> simp

theorem escBody_len (cs : List Char) : cs.length ≤ (cs.flatMap jsonEscapeChar).length := by
  induction cs with
  | nil => simp
  | cons c t ih =>
      have := jsonEscapeChar_len c
      simp only [List.flatMap_cons, List.length_append, List.length_cons]
      omega

theorem parseStrBody_escape :
    ∀ (cs : List Char) (fuel : ℕ) (rest : List Char), cs.length < fuel →
      parseStrBody fuel (cs.flatMap jsonEscapeChar ++ '"' :: rest) = some (cs, rest) := by
  intro cs
  induction cs with
  | nil =>
      intro fuel rest hf
      cases fuel with
      | zero => omega
      | succ f => simp [parseStrBody]
  | cons c t ih =>
      intro fuel rest hf
      cases fuel with
      | zero => omega
      | succ f =>
      have hlt : t.length < f := by simpa using hf
      by_cases h1 : c = '"'
      · subst h1
        simp [List.flatMap_cons, jsonEscapeChar, parseStrBody, escCont]
        simpa using ih f rest hlt
      · by_cases h2 : c = '\\'
        · subst h2
          simp [List.flatMap_cons, jsonEscapeChar, parseStrBody, escCont]
          simpa using ih f rest hlt
        · by_cases h3 : c = '\n'
          · subst h3
            simp [List.flatMap_cons, jsonEscapeChar, parseStrBody, escCont]
            simpa using ih f rest hlt
          · by_cases h4 : c = '\r'
            · subst h4
              simp [List.flatMap_cons, jsonEscapeChar, parseStrBody, escCont]
              simpa using ih f rest hlt
            · by_cases h5 : c = '\t'
              · subst h5
                simp [List.flatMap_cons, jsonEscapeChar, parseStrBody, escCont]
                simpa using ih f rest hlt
              · by_cases h6 : c = '\x08'
                · subst h6
                  simp [List.flatMap_cons, jsonEscapeChar, parseStrBody, escCont]
                  simpa using ih f rest hlt
                · by_cases h7 : c = '\x0c'
                  · subst h7
                    simp [List.flatMap_cons, jsonEscapeChar, parseStrBody, escCont]
                    simpa using ih f rest hlt
                  · by_cases h8 : c.toNat < 32
                    · have hesc : jsonEscapeChar c =
                          ['\\', 'u', '0', '0', hexChar (c.toNat / 16), hexChar (c.toNat % 16)] := by
                        simp [jsonEscapeChar, h1, h2, h3, h4, h5, h6, h7, h8]
                      rw [List.flatMap_cons, hesc]
                      have hhi : hexVal (hexChar (c.toNat / 16)) = some (c.toNat / 16) :=
                        hexVal_hexChar (by omega)
                      have hlo : hexVal (hexChar (c.toNat % 16)) = some (c.toNat % 16) :=
                        hexVal_hexChar (by omega)
                      have hval : 0 * 4096 + 0 * 256 + c.toNat / 16 * 16 + c.toNat % 16
                          = c.toNat := by omega
                      have h0 : hexVal '0' = some 0 := rfl
                      simp [parseStrBody, h0, hhi, hlo]
                      refine ⟨by simpa using ih f rest hlt, ?_⟩
                      rw [show c.toNat / 16 * 16 + c.toNat % 16 = c.toNat by omega]
                      exact charOfNat_toNat c
                    · have hesc : jsonEscapeChar c = [c] := by
                        simp [jsonEscapeChar, h1, h2, h3, h4, h5, h6, h7, h8]
                      rw [List.flatMap_cons, hesc]
                      simp [parseStrBody, h1, h2, h8]
                      simpa using ih f rest hlt

theorem jsize_pos : ∀ v : JVal, 1 ≤ jsize v := by
  intro v
  cases v <;> simp [jsize]

theorem numBoundaryOk_comma (t : List Char) : numBoundaryOk (',' :: t) :=
  ⟨by decide, by decide⟩

theorem numBoundaryOk_bracket (t : List Char) : numBoundaryOk (']' :: t) :=
  ⟨by decide, by decide⟩

theorem numBoundaryOk_brace (t : List Char) : numBoundaryOk ('\x7d' :: t) :=
  ⟨by decide, by decide⟩

theorem natToChars_head (n : ℕ) :
    ∃ c t, natToChars n = c :: t ∧ isDigitChar c = true := by
  cases h : natToChars n with
  | nil => exact absurd h (natToChars_ne_nil n)
  | cons c t =>
      refine ⟨c, t, rfl, ?_⟩
      exact natToChars_digits c (by rw [h]; simp)

/-- The first character of a serialized value: never whitespace, never a
closer. -/
theorem serChars_head (v : JVal) :
    ∃ c t, serChars v = c :: t ∧ isJsonWs c = false ∧ c ≠ ']' ∧ c ≠ '\x7d' := by
  cases v with
  | null => exact ⟨'n', ['u', 'l', 'l'], by simp [serChars], by decide, by decide, by decide⟩
  | bool b =>
      cases b with
      | true => exact ⟨'t', ['r', 'u', 'e'], by simp [serChars], by decide, by decide, by decide⟩
      | false =>
          exact ⟨'f', ['a', 'l', 's', 'e'], by simp [serChars], by decide, by decide, by decide⟩
  | str s =>
      exact ⟨'"', s.data.flatMap jsonEscapeChar ++ ['"'],
        by simp [serChars, jsonQuoteChars], by decide, by decide, by decide⟩
  | arr xs =>
      exact ⟨'[', serElems xs ++ [']'], by simp [serChars], by decide, by decide, by decide⟩
  | obj es =>
      exact ⟨'\x7b', serMembers es ++ ['\x7d'], by simp [serChars], by decide, by decide,
        by decide⟩
  | num q =>
      have hser : serChars (.num q) = numToChars q := by simp [serChars]
      rw [hser]
      unfold numToChars
      by_cases hden : q.den = 1
      · rw [if_pos hden]
        unfold intToChars
        by_cases hneg : q.num < 0
        · rw [if_pos hneg]
          exact ⟨'-', natToChars q.num.natAbs, rfl, by decide, by decide, by decide⟩
        · rw [if_neg hneg]
          obtain ⟨c, t, hct, hcd⟩ := natToChars_head q.num.toNat
          have hf := digit_head_facts hcd
          exact ⟨c, t, hct, hf.2.2.2.2.2.2.2.2.2, hf.2.2.2.2.2.2.2.1, hf.2.2.2.2.2.2.2.2.1⟩
      · rw [if_neg hden]
        by_cases hneg : q.num < 0
        · rw [if_pos hneg]
          exact ⟨'-', _, rfl, by decide, by decide, by decide⟩
        · rw [if_neg hneg]
          obtain ⟨c, t, hct, hcd⟩ := natToChars_head (q.num.natAbs / q.den)
          have hf := digit_head_facts hcd
          refine ⟨c, t ++ '.' :: decFracChars 40 (q.num.natAbs % q.den) q.den, ?_,
            hf.2.2.2.2.2.2.2.2.2, hf.2.2.2.2.2.2.2.1, hf.2.2.2.2.2.2.2.2.1⟩
          simp [hct]

theorem serElems_head (x : JVal) (xs : List JVal) :
    ∃ c t, serElems (x :: xs) = c :: t ∧ isJsonWs c = false ∧ c ≠ ']' ∧ c ≠ '\x7d' := by
  obtain ⟨c, t, hct, h1, h2, h3⟩ := serChars_head x
  cases xs with
  | nil => exact ⟨c, t, by simp [serElems, hct], h1, h2, h3⟩
  | cons y ys =>
      exact ⟨c, t ++ ',' :: serElems (y :: ys), by simp [serElems, hct], h1, h2, h3⟩

theorem cast_natAbs_of_neg {q : ℚ} (hden : q.den = 1) (hneg : q.num < 0) :
    -((q.num.natAbs : ℕ) : ℚ) = q := by
  have h1 : ((q.num.natAbs : ℕ) : ℤ) = -q.num := by omega
  have h2 : ((q.num : ℤ) : ℚ) = q := (Rat.den_eq_one_iff q).mp hden
  calc -((q.num.natAbs : ℕ) : ℚ)
      = -((((q.num.natAbs : ℕ) : ℤ)) : ℚ) := by norm_cast
    _ = -(((-q.num : ℤ)) : ℚ) := by rw [h1]
    _ = ((q.num : ℤ) : ℚ) := by push_cast; ring
    _ = q := h2

theorem cast_toNat_of_nonneg {q : ℚ} (hden : q.den = 1) (hneg : ¬ q.num < 0) :
    ((q.num.toNat : ℕ) : ℚ) = q := by
  have h1 : ((q.num.toNat : ℕ) : ℤ) = q.num := by omega
  have h2 : ((q.num : ℤ) : ℚ) = q := (Rat.den_eq_one_iff q).mp hden
  have h3 : ((q.num.toNat : ℕ) : ℚ) = (((q.num.toNat : ℕ) : ℤ) : ℚ) := by push_cast; ring
  rw [h3, h1, h2]


/-- Core serialization/parsing round trip (integer numeric leaves), by fuel
induction simultaneously over values, array tails, and object tails. -/
theorem parse_ser_roundtrip :
    ∀ fuel : ℕ,
      (∀ v rest, intLeaves v → jsize v < fuel → numBoundaryOk rest →
        parseVal fuel (serChars v ++ rest) = some (v, rest))
      ∧ (∀ x xs rest, intLeavesL (x :: xs) → jsizeL (x :: xs) < fuel →
        parseArrLoop fuel (serElems (x :: xs) ++ ']' :: rest) = some (x :: xs, rest))
      ∧ (∀ k w es rest, intLeavesM ((k, w) :: es) → jsizeM ((k, w) :: es) < fuel →
        parseObjLoop fuel (serMembers ((k, w) :: es) ++ '\x7d' :: rest)
          = some ((k, w) :: es, rest)) := by
  intro fuel
  induction fuel with
  | zero =>
      refine ⟨fun v _ _ hsz _ => absurd hsz (by omega),
        fun x xs _ _ hsz => absurd hsz (by omega),
        fun k w es _ _ hsz => absurd hsz (by omega)⟩
  | succ f ih =>
      obtain ⟨ihV, ihA, ihO⟩ := ih
      refine ⟨?_, ?_, ?_⟩
      · intro v rest hint hsz hb
        cases v with
        | null =>
            rw [show serChars .null = ['n', 'u', 'l', 'l'] from by simp [serChars]]
            rfl
        | bool b =>
            cases b with
            | true =>
                rw [show serChars (.bool true) = ['t', 'r', 'u', 'e'] from by simp [serChars]]
                rfl
            | false =>
                rw [show serChars (.bool false) = ['f', 'a', 'l', 's', 'e'] from by
                  simp [serChars]]
                rfl
        | str s =>
            rw [show serChars (.str s) = '"' :: (s.data.flatMap jsonEscapeChar ++ ['"']) from by
              simp [serChars, jsonQuoteChars],
              show ('"' :: (s.data.flatMap jsonEscapeChar ++ ['"'])) ++ rest
                = '"' :: (s.data.flatMap jsonEscapeChar ++ '"' :: rest) from by simp]
            have hlen : s.data.length
                < (s.data.flatMap jsonEscapeChar ++ '"' :: rest).length + 1 := by
              have := escBody_len s.data
              simp only [List.length_append, List.length_cons]
              omega
            rw [parseVal_step f '"' (by decide), parseValHead_quote,
              parseStrBody_escape s.data _ rest hlen]
            rfl
        | num q =>
            have hden : q.den = 1 := by simpa [intLeaves] using hint
            rw [show serChars (.num q) = numToChars q from by simp [serChars]]
            unfold numToChars
            rw [if_pos hden]
            unfold intToChars
            by_cases hneg : q.num < 0
            · rw [if_pos hneg,
                show ('-' :: natToChars q.num.natAbs) ++ rest
                  = '-' :: (natToChars q.num.natAbs ++ rest) from rfl]
              rw [parseVal_step f '-' (by decide), parseValHead_minus,
                parseJsonNum_nat q.num.natAbs rest hb]
              simp [cast_natAbs_of_neg hden hneg]
            · rw [if_neg hneg]
              obtain ⟨c, t, hct, hcd⟩ := natToChars_head q.num.toNat
              have hf := digit_head_facts hcd
              rw [hct, show (c :: t) ++ rest = c :: (t ++ rest) from rfl]
              rw [parseVal_step f c hf.2.2.2.2.2.2.2.2.2, parseValHead_digit f hcd]
              rw [show c :: (t ++ rest) = natToChars q.num.toNat ++ rest from by rw [hct]; rfl]
              rw [parseJsonNum_nat q.num.toNat rest hb]
              simp [cast_toNat_of_nonneg hden hneg]
        | arr xs =>
            cases xs with
            | nil =>
                rw [show serChars (.arr []) = ['[', ']'] from by simp [serChars, serElems]]
                rfl
            | cons x xs2 =>
                rw [show serChars (.arr (x :: xs2)) = '[' :: (serElems (x :: xs2) ++ [']'])
                    from by simp [serChars],
                  show ('[' :: (serElems (x :: xs2) ++ [']'])) ++ rest
                    = '[' :: (serElems (x :: xs2) ++ ']' :: rest) from by simp]
                rw [parseVal_step f '[' (by decide)]
                obtain ⟨c, t, hct, hws, hnb, hnc⟩ := serElems_head x xs2
                have hsk : skipWsChars (serElems (x :: xs2) ++ ']' :: rest)
                    = c :: (t ++ ']' :: rest) := by
                  rw [show serElems (x :: xs2) ++ ']' :: rest = c :: (t ++ ']' :: rest) from by
                    rw [hct]; rfl]
                  exact skipWs_cons_not_ws hws
                rw [parseValHead_lbracket_cons f hsk, if_neg hnb]
                have harr : parseArrLoop f (c :: (t ++ ']' :: rest))
                    = some (x :: xs2, rest) := by
                  rw [show c :: (t ++ ']' :: rest) = serElems (x :: xs2) ++ ']' :: rest from by
                    rw [hct]; rfl]
                  exact ihA x xs2 rest (by simpa [intLeaves] using hint)
                    (by simp only [jsize] at hsz; omega)
                rw [harr]
                rfl
        | obj es =>
            cases es with
            | nil =>
                rw [show serChars (.obj []) = ['\x7b', '\x7d'] from by
                  simp [serChars, serMembers]]
                rfl
            | cons e es2 =>
                obtain ⟨k, w⟩ := e
                rw [show serChars (.obj ((k, w) :: es2))
                      = '\x7b' :: (serMembers ((k, w) :: es2) ++ ['\x7d']) from by
                    simp [serChars],
                  show ('\x7b' :: (serMembers ((k, w) :: es2) ++ ['\x7d'])) ++ rest
                    = '\x7b' :: (serMembers ((k, w) :: es2) ++ '\x7d' :: rest) from by simp]
                rw [parseVal_step f '\x7b' (by decide)]
                have hkey : ∃ t0, serMembers ((k, w) :: es2) ++ '\x7d' :: rest = '"' :: t0 := by
                  cases es2 with
                  | nil =>
                      exact ⟨k.data.flatMap jsonEscapeChar
                          ++ '"' :: (':' :: (serChars w ++ '\x7d' :: rest)),
                        by simp [serMembers, jsonQuoteChars]⟩
                  | cons e2 es3 =>
                      exact ⟨k.data.flatMap jsonEscapeChar
                          ++ '"' :: (':' :: (serChars w
                            ++ ',' :: (serMembers (e2 :: es3) ++ '\x7d' :: rest))),
                        by simp [serMembers, jsonQuoteChars]⟩
                obtain ⟨t0, ht0⟩ := hkey
                have hsk : skipWsChars (serMembers ((k, w) :: es2) ++ '\x7d' :: rest)
                    = '"' :: t0 := by
                  rw [ht0]
                  exact skipWs_cons_not_ws (by decide)
                rw [parseValHead_lbrace_cons f hsk, if_neg (by decide : ¬('"' = '\x7d'))]
                have hobj : parseObjLoop f ('"' :: t0) = some ((k, w) :: es2, rest) := by
                  rw [← ht0]
                  exact ihO k w es2 rest (by simpa [intLeaves] using hint)
                    (by simp only [jsize] at hsz; omega)
                rw [hobj]
                rfl
      · intro x xs rest hint hsz
        have hintx : intLeaves x := by
          have := hint
          simp only [intLeavesL] at this
          exact this.1
        cases xs with
        | nil =>
            have hszx : jsize x < f := by simp only [jsizeL] at hsz; omega
            have hV := ihV x (']' :: rest) hintx hszx (numBoundaryOk_bracket rest)
            rw [show serElems [x] = serChars x from by simp [serElems]]
            rw [parseArrLoop_step f hV, arrAfterVal_cons f x ']' rest (by decide),
              if_neg (by decide : ¬(']' = ',')), if_pos rfl]
        | cons y ys =>
            have hszx : jsize x < f := by simp only [jsizeL] at hsz; omega
            rw [show serElems (x :: y :: ys) ++ ']' :: rest
                = serChars x ++ (',' :: (serElems (y :: ys) ++ ']' :: rest)) from by
              simp [serElems]]
            have hV := ihV x (',' :: (serElems (y :: ys) ++ ']' :: rest)) hintx hszx
              (numBoundaryOk_comma _)
            rw [parseArrLoop_step f hV, arrAfterVal_cons f x ',' _ (by decide), if_pos rfl]
            have hA := ihA y ys rest
              (by have := hint; simp only [intLeavesL] at this ⊢; exact ⟨this.2.1, this.2.2⟩)
              (by simp only [jsizeL] at hsz ⊢; omega)
            rw [hA]
            rfl
      · intro k w es rest hint hsz
        have hintw : intLeaves w := by
          have := hint
          simp only [intLeavesM] at this
          exact this.1
        have hszw : jsize w < f := by simp only [jsizeM] at hsz; omega
        cases es with
        | nil =>
            rw [show serMembers [(k, w)] ++ '\x7d' :: rest
                = '"' :: (k.data.flatMap jsonEscapeChar
                    ++ '"' :: (':' :: (serChars w ++ '\x7d' :: rest))) from by
              simp [serMembers, jsonQuoteChars]]
            rw [parseObjLoop_step f '"' (by decide), if_pos rfl]
            have hlen : k.data.length
                < (k.data.flatMap jsonEscapeChar
                    ++ '"' :: (':' :: (serChars w ++ '\x7d' :: rest))).length + 1 := by
              have := escBody_len k.data
              simp only [List.length_append, List.length_cons]
              omega
            rw [objAfterKeyOpen_step f
              (parseStrBody_escape k.data _ (':' :: (serChars w ++ '\x7d' :: rest)) hlen)]
            rw [objAfterKey_cons f k.data ':' _ (by decide), if_pos rfl]
            have hV := ihV w ('\x7d' :: rest) hintw hszw (numBoundaryOk_brace rest)
            rw [objAfterColon_step f k.data hV,
              objAfterVal_cons f k.data w '\x7d' rest (by decide),
              if_neg (by decide : ¬('\x7d' = ',')), if_pos rfl]
        | cons e2 es2 =>
            obtain ⟨k2, w2⟩ := e2
            rw [show serMembers ((k, w) :: (k2, w2) :: es2) ++ '\x7d' :: rest
                = '"' :: (k.data.flatMap jsonEscapeChar
                    ++ '"' :: (':' :: (serChars w
                      ++ ',' :: (serMembers ((k2, w2) :: es2) ++ '\x7d' :: rest)))) from by
              simp [serMembers, jsonQuoteChars]]
            rw [parseObjLoop_step f '"' (by decide), if_pos rfl]
            have hlen : k.data.length
                < (k.data.flatMap jsonEscapeChar
                    ++ '"' :: (':' :: (serChars w
                      ++ ',' :: (serMembers ((k2, w2) :: es2) ++ '\x7d' :: rest)))).length
                  + 1 := by
              have := escBody_len k.data
              simp only [List.length_append, List.length_cons]
              omega
            rw [objAfterKeyOpen_step f (parseStrBody_escape k.data _
              (':' :: (serChars w ++ ',' :: (serMembers ((k2, w2) :: es2) ++ '\x7d' :: rest)))
              hlen)]
            rw [objAfterKey_cons f k.data ':' _ (by decide), if_pos rfl]
            have hV := ihV w (',' :: (serMembers ((k2, w2) :: es2) ++ '\x7d' :: rest)) hintw
              hszw (numBoundaryOk_comma _)
            rw [objAfterColon_step f k.data hV,
              objAfterVal_cons f k.data w ',' _ (by decide), if_pos rfl]
            have hO := ihO k2 w2 es2 rest
              (by have := hint; simp only [intLeavesM] at this ⊢; exact ⟨this.2.1, this.2.2⟩)
              (by simp only [jsizeM] at hsz ⊢; omega)
            rw [hO]
            rfl

/-! ## From the round trip to `extractJson` idempotence on objects -/

/-- The parser-fuel measure is bounded by the serialized length. -/
theorem sizes_le : ∀ n : ℕ,
    (∀ v : JVal, jsize v ≤ n → jsize v ≤ (serChars v).length)
    ∧ (∀ xs : List JVal, jsizeL xs ≤ n → jsizeL xs ≤ (serElems xs).length + 1)
    ∧ (∀ es : List (String × JVal), jsizeM es ≤ n → jsizeM es ≤ (serMembers es).length + 1) := by
  intro n
  induction n with
  | zero =>
      refine ⟨fun v hv => absurd hv (by have := jsize_pos v; omega), ?_, ?_⟩
      · intro xs hxs
        cases xs with
        | nil => simp [jsizeL, serElems]
        | cons x t => exact absurd hxs (by simp only [jsizeL]; omega)
      · intro es hes
        cases es with
        | nil => simp [jsizeM, serMembers]
        | cons e t =>
            obtain ⟨k, v⟩ := e
            exact absurd hes (by simp only [jsizeM]; omega)
  | succ n ih =>
      obtain ⟨ihV, ihL, ihM⟩ := ih
      refine ⟨?_, ?_, ?_⟩
      · intro v hv
        cases v with
        | null => simp [jsize, serChars]
        | bool b => cases b <;> simp [jsize, serChars]
        | num q =>
            obtain ⟨c, t, hct, _, _, _⟩ := serChars_head (.num q)
            rw [hct]
            simp [jsize]
        | str s =>
            obtain ⟨c, t, hct, _, _, _⟩ := serChars_head (.str s)
            rw [hct]
            simp [jsize]
        | arr xs =>
            have h1 : jsizeL xs ≤ n := by simp only [jsize] at hv; omega
            have h2 := ihL xs h1
            simp only [jsize, serChars, List.length_cons, List.length_append, List.length_nil]
            omega
        | obj es =>
            have h1 : jsizeM es ≤ n := by simp only [jsize] at hv; omega
            have h2 := ihM es h1
            simp only [jsize, serChars, List.length_cons, List.length_append, List.length_nil]
            omega
      · intro xs hxs
        cases xs with
        | nil => simp [jsizeL, serElems]
        | cons x t =>
            cases t with
            | nil =>
                have h1 : jsize x ≤ n := by simp only [jsizeL] at hxs; omega
                have h2 := ihV x h1
                have hse : serElems [x] = serChars x := by simp [serElems]
                simp only [jsizeL, hse]
                omega
            | cons y ys =>
                have h1 : jsize x ≤ n := by simp only [jsizeL] at hxs; omega
                have h2 : jsizeL (y :: ys) ≤ n := by simp only [jsizeL] at hxs ⊢; omega
                have h3 := ihV x h1
                have h4 := ihL (y :: ys) h2
                have hse : serElems (x :: y :: ys)
                    = serChars x ++ ',' :: serElems (y :: ys) := by simp [serElems]
                rw [hse]
                simp only [jsizeL, List.length_append, List.length_cons] at h4 ⊢
                omega
      · intro es hes
        cases es with
        | nil => simp [jsizeM, serMembers]
        | cons e t =>
            obtain ⟨k, v⟩ := e
            cases t with
            | nil =>
                have h1 : jsize v ≤ n := by simp only [jsizeM] at hes; omega
                have h2 := ihV v h1
                have hse : serMembers [(k, v)] = jsonQuoteChars k ++ ':' :: serChars v := by
                  simp [serMembers]
                simp only [jsizeM, hse, List.length_append, List.length_cons]
                omega
            | cons e2 t2 =>
                obtain ⟨k2, v2⟩ := e2
                have h1 : jsize v ≤ n := by simp only [jsizeM] at hes; omega
                have h2 : jsizeM ((k2, v2) :: t2) ≤ n := by
                  simp only [jsizeM] at hes ⊢
                  omega
                have h3 := ihV v h1
                have h4 := ihM ((k2, v2) :: t2) h2
                have hse : serMembers ((k, v) :: (k2, v2) :: t2)
                    = jsonQuoteChars k
                        ++ ':' :: (serChars v ++ ',' :: serMembers ((k2, v2) :: t2)) := by
                  simp [serMembers]
                rw [hse]
                simp only [jsizeM, List.length_append, List.length_cons] at h4 ⊢
                omega

theorem jsize_le_serChars (v : JVal) : jsize v ≤ (serChars v).length :=
  (sizes_le (jsize v)).1 v le_rfl

/-- Full-input parsing inverts serialization (integer numeric leaves). -/
theorem jsonParse_serChars (v : JVal) (h : intLeaves v) :
    jsonParseChars (serChars v) = some v := by
  have hsz : jsize v < (serChars v).length + 1 := by
    have := jsize_le_serChars v
    omega
  have hr := (parse_ser_roundtrip ((serChars v).length + 1)).1 v [] h hsz trivial
  rw [List.append_nil] at hr
  unfold jsonParseChars
  rw [hr]
  rfl

/-- Without a triple backtick anywhere, the fence regex does not match. -/
theorem fenceCapture_none : ∀ cs : List Char, containsChars cs tripleTick = false →
    fenceCapture cs = none := by
  intro cs
  induction cs with
  | nil => intro _; rfl
  | cons c t ih =>
      intro h
      by_cases hsw : startsWithChars (c :: t) tripleTick = true
      · exfalso
        rw [containsChars, if_pos hsw] at h
        exact Bool.true_eq_false.mp h
      · have ht : containsChars t tripleTick = false := by
          rw [containsChars, if_neg hsw] at h
          exact h
        rw [fenceCapture, if_neg hsw]
        exact ih ht

/-- The brace regex recovers a serialized object whole: the first `\x7b` is
the first character and the last `\x7d` is the last. -/
theorem rawBraceSlice_ser (mid : List Char) :
    rawBraceSlice ('\x7b' :: (mid ++ ['\x7d'])) = some ('\x7b' :: (mid ++ ['\x7d'])) := by
  unfold rawBraceSlice
  have h1 : ('\x7b' :: (mid ++ ['\x7d'])).dropWhile (fun c => !(c = '\x7b'))
      = '\x7b' :: (mid ++ ['\x7d']) := by
    rw [List.dropWhile_cons]
    simp
  have h2 : ('\x7b' :: (mid ++ ['\x7d'])).reverse.dropWhile (fun c => !(c = '\x7d'))
      = ('\x7b' :: (mid ++ ['\x7d'])).reverse := by
    rw [show ('\x7b' :: (mid ++ ['\x7d'])).reverse
        = '\x7d' :: (mid.reverse ++ ['\x7b']) from by simp]
    rw [List.dropWhile_cons]
    simp
  simp only [h1, h2]
  simp

/-- A serialized object survives `extractJson` when no fence can match. -/
theorem extractJson_obj_id (es : List (String × JVal)) (hint : intLeavesM es)
    (hfence : containsChars (serChars (.obj es)) tripleTick = false) :
    extractJson (jsonStringify (.obj es)) = some (.obj es) := by
  have hser : serChars (.obj es) = '\x7b' :: (serMembers es ++ ['\x7d']) := by
    simp [serChars]
  have hne : (⟨serChars (.obj es)⟩ : String) ≠ "" := by
    intro hc
    have hd : serChars (.obj es) = [] := congrArg String.data hc
    rw [hser] at hd
    exact List.noConfusion hd
  have hfc : fenceCapture (serChars (.obj es)) = none := fenceCapture_none _ hfence
  have hraw : rawBraceSlice (serChars (.obj es)) = some (serChars (.obj es)) := by
    rw [hser]
    exact rawBraceSlice_ser (serMembers es)
  have hparse : jsonParseChars (serChars (.obj es)) = some (.obj es) :=
    jsonParse_serChars _ (by simpa [intLeaves] using hint)
  unfold extractJson jsonStringify
  rw [if_neg hne]
  simp only [hfc, hraw, hparse]

/-- C8, counterexample: `extractJson` is not idempotent with `JSON.stringify`
on all of its successful outputs.  A fenced non-object result such as the
bare number in "```json 42 ```" extracts to `42`, but `extractJson` on the
serialization "42" finds neither a fence nor a brace pair and returns
`null`, not `42`. -/
theorem extractJson_stringify_counterexample :
    extractJson "```json\n42\n```" = some (.num 42)
    ∧ extractJson (jsonStringify (.num 42)) = none := ⟨rfl, rfl⟩

/-- C8 (amended): on a successful OBJECT extraction whose serialization
contains no triple backtick (stated over integer numeric leaves, the
embedding's numeric-formatting scope), `extractJson` is idempotent with
`JSON.stringify`: re-extracting the serialized result yields the original
extraction. -/
theorem extractJson_stringify_id (text : String) (es : List (String × JVal))
    (hout : extractJson text = some (.obj es)) (hint : intLeavesM es)
    (hfence : containsChars (serChars (.obj es)) tripleTick = false) :
    extractJson (jsonStringify (.obj es)) = extractJson text := by
  rw [hout]
  exact extractJson_obj_id es hint hfence

theorem extractJson_stringify_id_witness :
    extractJson (jsonStringify (.obj [("a", JVal.num 42)]))
      = extractJson "\x7b\"a\":42\x7d" :=
  extractJson_stringify_id "\x7b\"a\":42\x7d" [("a", JVal.num 42)] rfl ⟨rfl, trivial⟩ rfl

/-! ## The `src/api/new.ts` handler: control flow over supplied upstream data

The handler's fetches are modelled by an environment that already holds the
text content each upstream chat call would return (`choices?.[0]?.message
?.content || ""` is a string, empty on a missing field); prompt construction
and transport are not part of the embedded behaviour.  Response bodies are
represented by the values the source builds them from, through the builders
modelled above (`buildCompleteNutrition`, `normalizeAiFoods`,
`normalizeChickenName`); the per-stage trace records which pipeline sections
execute. -/

inductive Stage
  | s0 | bypass | s1 | s15 | pizza | s2 | s3
  deriving DecidableEq

structure Env where
  method : String
  hasKey : Bool
  description : String
  photoUrl : Option JVal
  stage0Content : String
  bypassContent : String
  stage1Content : String
  imageBypassContent : String
  pizzaOk : Bool
  pizzaResult : JVal
  stage2Content : String
  toneContent : Option String

/-- `assertValidPhotoUrl` (src/api/new.ts lines 110-134): falsy passes; only
a string that starts with `file://` or `https://` and contains none of the
injection markers passes; anything else throws (modelled as `false`). -/
def validPhoto (p : Option JVal) : Bool :=
  if otruthy p = false then true
  else match p with
    | some (.str s) =>
        (startsWithChars s.data "file://".data || startsWithChars s.data "https://".data)
        && !strIncludes s "javascript:" && !strIncludes s "data:"
        && !strIncludes s "<" && !strIncludes s ">"
    | _ => false

/-- The `||` fallback classification of stage 0. -/
def fallbackObj (description : String) : JVal :=
  .obj [("kind", .str "mixed_meal"), ("normalized_name", .str description),
    ("quantity_description", .str description)]

/-- `const stage0 = extractJson(stage0Content) || {kind: "mixed_meal", ...}`. -/
def stage0Of (env : Env) : JVal :=
  (jOr (extractJson env.stage0Content) (some (fallbackObj env.description))).getD
    (fallbackObj env.description)

/-- `stage0.kind === "branded" || stage0.kind === "single_food"`. -/
def isBypassKind (s0 : JVal) : Bool :=
  match jget s0 "kind" with
  | some (.str k) => decide (k = "branded") || decide (k = "single_food")
  | _ => false

/-- `Number(v) || null`: zero and NaN both collapse to null. -/
def numOrNull (v : Option JVal) : Option ℚ :=
  match jplus v with
  | some q => if q = 0 then none else some q
  | none => none

/-- `const stage1 = extractJson(stage1Content) ?? { foods: [], summary: "" }`. -/
def stage1Of (env : Env) : JVal :=
  (jcoalesce (extractJson env.stage1Content)
    (some (.obj [("foods", .arr []), ("summary", .str "")]))).getD
    (.obj [("foods", .arr []), ("summary", .str "")])

/-- Stage 1.5 guard: `!description && stage1.foods && stage1.foods.length === 1`
(a non-array truthy `foods` has no length 1). -/
def stage15Cond (env : Env) (s1 : JVal) : Bool :=
  decide (env.description = "") &&
    (match jget s1 "foods" with
     | some (.arr xs) => decide (xs.length = 1)
     | _ => false)

/-- JS string conversion for the template-literal pieces that occur in the
pizza check (composite values only as far as exercised). -/
def jsConcatStr : JVal → String
  | .str s => s
  | .num q => ⟨numToChars q⟩
  | .bool true => "true"
  | .bool false => "false"
  | .null => "null"
  | .arr _ => ""
  | .obj _ => "[object Object]"

/-- `Array.prototype.join` piece: null/undefined render empty. -/
def joinPiece : Option JVal → String
  | none => ""
  | some .null => ""
  | some v => jsConcatStr v

/-- `(stage1.foods || []).map(f => f.name).join(" ")`. -/
def nameJoinPieces (xs : List JVal) : String :=
  String.intercalate " " (xs.map (fun f => joinPiece (jget f "name")))

/-- `description + " " + (stage1.summary || "") + " " + <names>` of the pizza
check. -/
def combinedTextOf (env : Env) (s1 : JVal) : String :=
  env.description ++ " "
    ++ (match jOr (jget s1 "summary") (some (.str "")) with
        | some v => jsConcatStr v
        | none => "")
    ++ " "
    ++ (match jOr (jget s1 "foods") (some (.arr [])) with
        | some (.arr xs) => nameJoinPieces xs
        | _ => "")

inductive HResp
  | methodNotAllowed
  | missingKey
  | invalidPhoto
  | bypassParseError
  | bypassOk (nutrition : NutritionN) (foods : List NFood)
  | imageOk (nutrition : NutritionN) (aiFoods : Option JVal)
  | pizzaOk (result : JVal)
  | stage2ParseError
  | crash
  | finalOk (nutrition : NutritionN) (foods : List NFood) (summary : JVal)

/-- The bypass branch: parse, 500 on a falsy result, else the 200 body. -/
def runBypass (env : Env) (s0 : JVal) : HResp × List Stage :=
  let sp := extractJson env.bypassContent
  if otruthy sp then
    let parsed := sp.getD .null
    (.bypassOk (buildCompleteNutritionNew parsed)
        (normalizeAiFoods (jget parsed "ai_foods") (jget s0 "normalized_name")
          (numOrNull (jget s0 "quantity_description"))),
      [Stage.s0, Stage.bypass])
  else (.bypassParseError, [Stage.s0, Stage.bypass])

/-- The final 200 body: `stage1.foods.map(normalizeChickenName)` through
`normalizeAiFoods` (a non-array `stage1.foods` would throw at `.map`). -/
def finalize (env : Env) (s0 s1 parsed friendly : JVal) (tr : List Stage) :
    HResp × List Stage :=
  match jget s1 "foods" with
  | some (.arr xs) =>
      (.finalOk (buildCompleteNutritionNew parsed)
        (normalizeAiFoods (some (.arr (xs.map normalizeChickenName)))
          (jget s0 "normalized_name") (numOrNull (jget s0 "quantity_description")))
        friendly, tr)
  | _ => (.crash, tr)

/-- Stage 2 (500 on falsy parse) and the guarded stage 3 tone rewrite. -/
def afterPizza (env : Env) (s0 s1 : JVal) (tr : List Stage) : HResp × List Stage :=
  let p := extractJson env.stage2Content
  if otruthy p = false then (.stage2ParseError, tr ++ [Stage.s2])
  else
    let parsed := p.getD .null
    let fs0 := jOr (jget s1 "summary") (some (.str ""))
    if otruthy fs0 then
      let friendly :=
        match env.toneContent with
        | some t => if t = "" then fs0.getD .null else .str t
        | none => fs0.getD .null
      finalize env s0 s1 parsed friendly (tr ++ [Stage.s2, Stage.s3])
    else finalize env s0 s1 parsed (fs0.getD .null) (tr ++ [Stage.s2])

/-- The pizza special case: on a detected "pizza" the script's success
returns its result; its failure falls through to stage 2. -/
def afterImage (env : Env) (s0 s1 : JVal) (tr : List Stage) : HResp × List Stage :=
  if strIncludes (lowerStr (combinedTextOf env s1)) "pizza" then
    if env.pizzaOk then (.pizzaOk env.pizzaResult, tr ++ [Stage.pizza])
    else afterPizza env s0 s1 (tr ++ [Stage.pizza])
  else afterPizza env s0 s1 tr

/-- Stage 1.5 image shortcut: a falsy parse falls through to pizza/stage 2. -/
def afterStage1 (env : Env) (s0 s1 : JVal) : HResp × List Stage :=
  if stage15Cond env s1 then
    let ip := extractJson env.imageBypassContent
    if otruthy ip then
      (.imageOk (buildCompleteNutritionNew (ip.getD .null)) (jget (ip.getD .null) "ai_foods"),
        [Stage.s0, Stage.s1, Stage.s15])
    else afterImage env s0 s1 [Stage.s0, Stage.s1, Stage.s15]
  else afterImage env s0 s1 [Stage.s0, Stage.s1]

/-- `handler` of `src/api/new.ts` lines 305-984. -/
def handler (env : Env) : HResp × List Stage :=
  if env.method ≠ "POST" then (.methodNotAllowed, [])
  else if env.hasKey = false then (.missingKey, [])
  else if validPhoto env.photoUrl = false then (.invalidPhoto, [])
  else
    let s0 := stage0Of env
    if isBypassKind s0 then runBypass env s0
    else afterStage1 env s0 (stage1Of env)

theorem finalize_trace (env : Env) (s0 s1 parsed friendly : JVal) (tr : List Stage) :
    (finalize env s0 s1 parsed friendly tr).2 = tr := by
  unfold finalize
  cases jget s1 "foods" with
  | none => rfl
  | some v => cases v <;> rfl

theorem afterPizza_mem (env : Env) (s0 s1 : JVal) (tr : List Stage)
    (h : Stage.s1 ∈ tr) : Stage.s1 ∈ (afterPizza env s0 s1 tr).2 := by
  unfold afterPizza
  by_cases h1 : otruthy (extractJson env.stage2Content) = false
  · simp [h1, h]
  · by_cases h2 : otruthy (jOr (jget s1 "summary") (some (.str ""))) = true
    · simp [h1, h2, finalize_trace, h]
    · simp [h1, h2, finalize_trace, h]

theorem afterImage_mem (env : Env) (s0 s1 : JVal) (tr : List Stage)
    (h : Stage.s1 ∈ tr) : Stage.s1 ∈ (afterImage env s0 s1 tr).2 := by
  unfold afterImage
  by_cases hpz : strIncludes (lowerStr (combinedTextOf env s1)) "pizza" = true
  · by_cases hok : env.pizzaOk = true
    · rw [if_pos hpz, if_pos hok]
      exact List.mem_append_left _ h
    · rw [if_pos hpz, if_neg hok]
      exact afterPizza_mem env s0 s1 _ (List.mem_append_left _ h)
  · rw [if_neg hpz]
    exact afterPizza_mem env s0 s1 tr h

theorem afterStage1_mem (env : Env) (s0 s1 : JVal) :
    Stage.s1 ∈ (afterStage1 env s0 s1).2 := by
  unfold afterStage1
  by_cases hc : stage15Cond env s1 = true
  · by_cases hip : otruthy (extractJson env.imageBypassContent) = true
    · simp only [hc, if_true, hip]
      decide
    · simp only [hc, if_true, hip, Bool.false_eq_true, if_false]
      exact afterImage_mem env s0 s1 [Stage.s0, Stage.s1, Stage.s15] (by decide)
  · rw [if_neg hc]
    exact afterImage_mem env s0 s1 [Stage.s0, Stage.s1] (by decide)

/-- C4: when the stage-0 classification kind is "branded" or "single_food",
the handler returns from the bypass branch: the executed stages are exactly
stage 0 and the bypass, and Stage 1, Stage 1.5, the pizza override, Stage 2,
and Stage 3 never run. -/
theorem bypass_skips_stages (env : Env)
    (hm : env.method = "POST") (hk : env.hasKey = true)
    (hp : validPhoto env.photoUrl = true)
    (hkind : isBypassKind (stage0Of env) = true) :
    handler env = runBypass env (stage0Of env)
    ∧ (handler env).2 = [Stage.s0, Stage.bypass]
    ∧ Stage.s1 ∉ (handler env).2 ∧ Stage.s15 ∉ (handler env).2
    ∧ Stage.pizza ∉ (handler env).2 ∧ Stage.s2 ∉ (handler env).2
    ∧ Stage.s3 ∉ (handler env).2 := by
  have h1 : handler env = runBypass env (stage0Of env) := by
    unfold handler
    rw [if_neg (by simp [hm]), if_neg (by simp [hk]), if_neg (by simp [hp])]
    simp only [hkind, if_true]
  have h2 : (runBypass env (stage0Of env)).2 = [Stage.s0, Stage.bypass] := by
    unfold runBypass
    by_cases h : otruthy (extractJson env.bypassContent) = true
    · simp only [h, if_true]
    · simp only [h, Bool.false_eq_true, if_false]
  have htr : (handler env).2 = [Stage.s0, Stage.bypass] := by rw [h1, h2]
  refine ⟨h1, htr, ?_, ?_, ?_, ?_, ?_⟩ <;> rw [htr] <;> decide

def envBypass : Env :=
  ⟨"POST", true, "protein bar", none, "\x7b\"kind\":\"branded\"\x7d",
    "", "", "", false, .null, "", none⟩

theorem bypass_skips_stages_witness :
    handler envBypass = runBypass envBypass (stage0Of envBypass)
    ∧ (handler envBypass).2 = [Stage.s0, Stage.bypass]
    ∧ Stage.s1 ∉ (handler envBypass).2 ∧ Stage.s15 ∉ (handler envBypass).2
    ∧ Stage.pizza ∉ (handler envBypass).2 ∧ Stage.s2 ∉ (handler envBypass).2
    ∧ Stage.s3 ∉ (handler envBypass).2 :=
  bypass_skips_stages envBypass rfl rfl rfl rfl

def envC9 : Env :=
  ⟨"POST", true, "eggs", none, "```json\n42\n```", "", "", "", false, .null, "", none⟩

/-- C9, counterexample: "does not yield a parsable JSON object" does not
imply the fallback classification.  A stage-0 content whose extraction is a
truthy non-object (a fenced bare `42`) passes the `||` untouched: the
pipeline proceeds with classification `42`, not with the mixed_meal
fallback object. -/
theorem stage0_fallback_counterexample :
    (∀ es : List (String × JVal), extractJson "```json\n42\n```" ≠ some (.obj es))
    ∧ stage0Of envC9 = .num 42
    ∧ stage0Of envC9 ≠ fallbackObj "eggs" := by
  refine ⟨?_, rfl, ?_⟩
  · intro es h
    rw [show extractJson "```json\n42\n```" = some (.num 42) from rfl] at h
    exact JVal.noConfusion (Option.some.inj h)
  · intro h
    have h2 : JVal.num 42 = fallbackObj "eggs" := h
    exact JVal.noConfusion h2

/-- C9 (amended): when the stage-0 extraction yields null (no parsable JSON
value at all), the pipeline proceeds with the classification
`{kind: "mixed_meal", normalized_name: description, quantity_description:
description}` rather than failing, and reaches Stage 1. -/
theorem stage0_fallback (env : Env)
    (hm : env.method = "POST") (hk : env.hasKey = true)
    (hp : validPhoto env.photoUrl = true)
    (hfail : extractJson env.stage0Content = none) :
    stage0Of env = fallbackObj env.description
    ∧ Stage.s1 ∈ (handler env).2 := by
  have hs0 : stage0Of env = fallbackObj env.description := by
    unfold stage0Of
    rw [hfail]
    rfl
  have hkind : isBypassKind (stage0Of env) = false := by
    rw [hs0]
    rfl
  refine ⟨hs0, ?_⟩
  unfold handler
  rw [if_neg (by simp [hm]), if_neg (by simp [hk]), if_neg (by simp [hp])]
  simp only [hkind, Bool.false_eq_true, if_false]
  exact afterStage1_mem env (stage0Of env) (stage1Of env)

def envC9fb : Env :=
  ⟨"POST", true, "eggs with rice", none, "no json here", "", "", "", false, .null, "", none⟩

theorem stage0_fallback_witness :
    stage0Of envC9fb = fallbackObj "eggs with rice"
    ∧ Stage.s1 ∈ (handler envC9fb).2 :=
  stage0_fallback envC9fb rfl rfl rfl rfl

/-! ## C1: key-order-insensitive object equivalence

`jequivb` is the Boolean, fuel-structural test that two `JVal`s are the same
JSON value up to re-ordering of object keys (arrays keep their order); its
object case requires unique keys on the left and matches each entry by key
lookup-and-removal on the right. -/

def nodupKeysB (es : List (String × JVal)) : Bool := decide (es.map Prod.fst).Nodup

/-- Remove the first entry with the given key, keeping the order of the
remaining entries, and return its value. -/
def findRemove (k : String) : List (String × JVal) → Option (JVal × List (String × JVal))
  | [] => none
  | (k', v) :: t =>
      if k' = k then some (v, t)
      else (findRemove k t).map (fun p => (p.1, (k', v) :: p.2))

mutual

def jequivb : ℕ → JVal → JVal → Bool
  | 0, _, _ => false
  | f + 1, v, w =>
      match v, w with
      | .null, .null => true
      | .bool a, .bool b => decide (a = b)
      | .num a, .num b => decide (a = b)
      | .str a, .str b => decide (a = b)
      | .arr xs, .arr ys => jequivbL f xs ys
      | .obj es, .obj fs => nodupKeysB es && jequivbM f es fs
      | _, _ => false

def jequivbL : ℕ → List JVal → List JVal → Bool
  | 0, _, _ => false
  | _ + 1, [], [] => true
  | f + 1, x :: xs, y :: ys => jequivb f x y && jequivbL f xs ys
  | _ + 1, _, _ => false

def jequivbM : ℕ → List (String × JVal) → List (String × JVal) → Bool
  | 0, _, _ => false
  | _ + 1, [], fs => fs.isEmpty
  | f + 1, (k, v) :: es, fs =>
      match findRemove k fs with
      | some (w, fs2) => jequivb f v w && jequivbM f es fs2
      | none => false

end

/-! Code-point order on key characters: totality, transitivity, antisymmetry. -/

theorem char_toNat_inj {c d : Char} (h : c.toNat = d.toNat) : c = d := by
  have := charOfNat_toNat c
  rw [h, charOfNat_toNat d] at this
  exact this.symm

theorem charsLe_total : ∀ x y : List Char, charsLe x y = true ∨ charsLe y x = true := by
  intro x
  induction x with
  | nil => intro y; left; rfl
  | cons c cs ih =>
      intro y
      cases y with
      | nil => right; rfl
      | cons d ds =>
          by_cases hcd : c = d
          · subst hcd
            rcases ih ds with h | h
            · left; simpa [charsLe] using h
            · right; simpa [charsLe] using h
          · have hne : c.toNat ≠ d.toNat := fun h => hcd (char_toNat_inj h)
            by_cases hlt : c.toNat < d.toNat
            · left; simp [charsLe, hcd, hlt]
            · right
              simp [charsLe, Ne.symm hcd]
              omega

theorem charsLe_trans :
    ∀ x y z : List Char, charsLe x y = true → charsLe y z = true → charsLe x z = true := by
  intro x
  induction x with
  | nil => intro y z _ _; rfl
  | cons c cs ih =>
      intro y z hxy hyz
      cases y with
      | nil => simp [charsLe] at hxy
      | cons d ds =>
          cases z with
          | nil => simp [charsLe] at hyz
          | cons e es =>
              by_cases hcd : c = d
              · subst hcd
                by_cases hde : c = e
                · subst hde
                  simp only [charsLe, if_pos rfl] at hxy hyz ⊢
                  exact ih ds es hxy hyz
                · simp only [charsLe, if_pos rfl] at hxy
                  simpa [charsLe, hde] using hyz
              · by_cases hde : d = e
                · subst hde
                  simpa [charsLe, hcd] using hxy
                · have h1 : c.toNat < d.toNat := by simpa [charsLe, hcd] using hxy
                  have h2 : d.toNat < e.toNat := by simpa [charsLe, hde] using hyz
                  have hce : c ≠ e := fun h => by
                    rw [h] at h1
                    omega
                  simp [charsLe, hce]
                  omega

theorem charsLe_antisymm :
    ∀ x y : List Char, charsLe x y = true → charsLe y x = true → x = y := by
  intro x
  induction x with
  | nil =>
      intro y _ hyx
      cases y with
      | nil => rfl
      | cons d ds => simp [charsLe] at hyx
  | cons c cs ih =>
      intro y hxy hyx
      cases y with
      | nil => simp [charsLe] at hxy
      | cons d ds =>
          by_cases hcd : c = d
          · subst hcd
            simp only [charsLe, if_pos rfl] at hxy hyx
            rw [ih ds hxy hyx]
          · have h1 : c.toNat < d.toNat := by simpa [charsLe, hcd] using hxy
            have h2 : d.toNat < c.toNat := by simpa [charsLe, Ne.symm hcd] using hyx
            omega

instance : IsTotal (String × JVal) keyLeR :=
  ⟨fun a b => charsLe_total a.1.data b.1.data⟩

instance : IsTrans (String × JVal) keyLeR :=
  ⟨fun a b c hab hbc => charsLe_trans a.1.data b.1.data c.1.data hab hbc⟩

theorem keyLe_antisymm_key {a b : String × JVal} (hab : keyLeR a b) (hba : keyLeR b a) :
    a.1 = b.1 := by
  have := charsLe_antisymm a.1.data b.1.data hab hba
  exact String.ext this

theorem charsLe_refl : ∀ x : List Char, charsLe x x = true := by
  intro x
  induction x with
  | nil => rfl
  | cons c cs ih => simpa [charsLe] using ih

theorem keyLeR_refl (a : String × JVal) : keyLeR a a := charsLe_refl a.1.data

/-- Two sorted entry lists that are permutations of each other and have
unique keys are equal (key antisymmetry plus key uniqueness). -/
theorem sorted_perm_nodupkeys_eq :
    ∀ {l1 l2 : List (String × JVal)}, l1.Perm l2 → l1.Sorted keyLeR → l2.Sorted keyLeR →
      (l1.map Prod.fst).Nodup → l1 = l2 := by
  intro l1
  induction l1 with
  | nil =>
      intro l2 hp _ _ _
      exact hp.nil_eq
  | cons a t1 ih =>
      intro l2 hp hs1 hs2 hnd
      cases l2 with
      | nil => exact absurd hp.symm.nil_eq (by simp)
      | cons b t2 =>
          have hmem_b : b ∈ a :: t1 := hp.symm.subset (List.mem_cons_self b t2)
          have hmem_a : a ∈ b :: t2 := hp.subset (List.mem_cons_self a t1)
          have hab : keyLeR a b := by
            rcases List.mem_cons.mp hmem_b with h | h
            · rw [h]; exact keyLeR_refl a
            · exact List.rel_of_sorted_cons hs1 b h
          have hba : keyLeR b a := by
            rcases List.mem_cons.mp hmem_a with h | h
            · rw [h]; exact keyLeR_refl b
            · exact List.rel_of_sorted_cons hs2 a h
          have hkey : a.1 = b.1 := keyLe_antisymm_key hab hba
          have hnd' : a.1 ∉ t1.map Prod.fst ∧ (t1.map Prod.fst).Nodup := by
            rw [List.map_cons] at hnd
            exact List.nodup_cons.mp hnd
          have hb_eq : b = a := by
            rcases List.mem_cons.mp hmem_b with h | h
            · exact h
            · exact absurd (by rw [hkey]; exact List.mem_map_of_mem Prod.fst h) hnd'.1
          subst hb_eq
          have hp' : t1.Perm t2 := hp.cons_inv
          have ht : t1 = t2 := ih hp' hs1.of_cons hs2.of_cons hnd'.2
          rw [ht]

/-- Sorting is permutation-invariant for unique-key entry lists. -/
theorem sortEntries_perm_eq {l1 l2 : List (String × JVal)} (hp : l1.Perm l2)
    (hnd : (l1.map Prod.fst).Nodup) : sortEntriesByKey l1 = sortEntriesByKey l2 := by
  apply sorted_perm_nodupkeys_eq
  · exact (List.perm_insertionSort keyLeR l1).trans
      (hp.trans (List.perm_insertionSort keyLeR l2).symm)
  · exact List.sorted_insertionSort keyLeR l1
  · exact List.sorted_insertionSort keyLeR l2
  · exact (((List.perm_insertionSort keyLeR l1).map Prod.fst).nodup_iff).mpr hnd

theorem findRemove_perm :
    ∀ {fs : List (String × JVal)} {k : String} {w : JVal} {fs2 : List (String × JVal)},
      findRemove k fs = some (w, fs2) → fs.Perm ((k, w) :: fs2) := by
  intro fs
  induction fs with
  | nil => intro k w fs2 h; exact absurd h (by simp [findRemove])
  | cons e t ih =>
      intro k w fs2 h
      obtain ⟨k', v⟩ := e
      by_cases hk : k' = k
      · unfold findRemove at h
        rw [if_pos hk] at h
        have h' := Option.some.inj h
        have hv : v = w := congrArg Prod.fst h'
        have ht : t = fs2 := congrArg Prod.snd h'
        rw [hk, hv, ht]
      · unfold findRemove at h
        rw [if_neg hk] at h
        cases hfr : findRemove k t with
        | none => rw [hfr] at h; simp at h
        | some p =>
            obtain ⟨w0, t0⟩ := p
            rw [hfr] at h
            have h' := Option.some.inj h
            have hw : w0 = w := congrArg Prod.fst h'
            have hfs2 : (k', v) :: t0 = fs2 := congrArg Prod.snd h'
            have hperm := ih hfr
            rw [← hfs2, ← hw]
            exact (hperm.cons (k', v)).trans (List.Perm.swap (k, w0) (k', v) t0)

theorem findRemove_lookup :
    ∀ {fs : List (String × JVal)} {k : String} {w : JVal} {fs2 : List (String × JVal)},
      findRemove k fs = some (w, fs2) → lookupKey k fs = some w := by
  intro fs
  induction fs with
  | nil => intro k w fs2 h; exact absurd h (by simp [findRemove])
  | cons e t ih =>
      intro k w fs2 h
      obtain ⟨k', v⟩ := e
      by_cases hk : k' = k
      · unfold findRemove at h
        rw [if_pos hk] at h
        have h' := Option.some.inj h
        have hv : v = w := congrArg Prod.fst h'
        simp only [lookupKey]
        rw [if_pos hk, hv]
      · unfold findRemove at h
        rw [if_neg hk] at h
        cases hfr : findRemove k t with
        | none => rw [hfr] at h; simp at h
        | some p =>
            obtain ⟨w0, t0⟩ := p
            rw [hfr] at h
            have h' := Option.some.inj h
            have hw : w0 = w := congrArg Prod.fst h'
            simp only [lookupKey]
            rw [if_neg hk, ih hfr, hw]

theorem findRemove_lookup_other :
    ∀ {fs : List (String × JVal)} {k : String} {w : JVal} {fs2 : List (String × JVal)}
      {key : String}, findRemove k fs = some (w, fs2) → key ≠ k →
      lookupKey key fs = lookupKey key fs2 := by
  intro fs
  induction fs with
  | nil => intro k w fs2 key h _; exact absurd h (by simp [findRemove])
  | cons e t ih =>
      intro k w fs2 key h hne
      obtain ⟨k', v⟩ := e
      by_cases hk : k' = k
      · unfold findRemove at h
        rw [if_pos hk] at h
        have h' := Option.some.inj h
        have ht : t = fs2 := congrArg Prod.snd h'
        rw [← ht]
        simp only [lookupKey]
        rw [if_neg (show ¬ k' = key from by rw [hk]; exact fun he => hne he.symm)]
      · unfold findRemove at h
        rw [if_neg hk] at h
        cases hfr : findRemove k t with
        | none => rw [hfr] at h; simp at h
        | some p =>
            obtain ⟨w0, t0⟩ := p
            rw [hfr] at h
            have h' := Option.some.inj h
            have hfs2 : (k', v) :: t0 = fs2 := congrArg Prod.snd h'
            rw [← hfs2]
            simp only [lookupKey]
            by_cases hkey : k' = key
            · rw [if_pos hkey, if_pos hkey]
            · rw [if_neg hkey, if_neg hkey, ih hfr hne]

/-- One rendered object member of `stableStringify`. -/
def entryRender (e : String × JVal) : String :=
  String.mk (jsonQuoteChars e.1) ++ ":" ++ stableStringify e.2

theorem stableStringify_arr (xs : List JVal) :
    stableStringify (.arr xs) = "[" ++ joinComma (xs.map stableStringify) ++ "]" := by
  simp only [stableStringify]
  exact congrArg (fun t => "[" ++ joinComma t ++ "]") (List.attach_map_val xs stableStringify)

theorem stableStringify_obj (es : List (String × JVal)) :
    stableStringify (.obj es)
      = "\x7b" ++ joinComma ((sortEntriesByKey es).map entryRender) ++ "\x7d" := by
  simp only [stableStringify]
  exact congrArg (fun t => "\x7b" ++ joinComma t ++ "\x7d")
    (List.attach_map_val (sortEntriesByKey es) entryRender)

/-- Key-equal, same-rendering entry pairing. -/
def entryR (e f : String × JVal) : Prop :=
  e.1 = f.1 ∧ stableStringify e.2 = stableStringify f.2

theorem orderedInsert_forall₂ :
    ∀ {t1 t2 : List (String × JVal)}, List.Forall₂ entryR t1 t2 →
      ∀ {a b : String × JVal}, entryR a b →
      List.Forall₂ entryR (t1.orderedInsert keyLeR a) (t2.orderedInsert keyLeR b) := by
  intro t1 t2 h
  induction h with
  | nil =>
      intro a b hab
      exact .cons hab .nil
  | @cons x y l1 l2 hxy htail ih =>
      intro a b hab
      have hcond : keyLeR a x ↔ keyLeR b y := by
        unfold keyLeR keyLeB
        rw [hab.1, hxy.1]
      by_cases hc : keyLeR a x
      · rw [List.orderedInsert, if_pos hc, List.orderedInsert, if_pos (hcond.mp hc)]
        exact .cons hab (.cons hxy htail)
      · rw [List.orderedInsert, if_neg hc, List.orderedInsert,
          if_neg (fun hh => hc (hcond.mpr hh))]
        exact .cons hxy (ih hab)

theorem forall₂_map_render {l1 l2 : List (String × JVal)}
    (h : List.Forall₂ entryR l1 l2) : l1.map entryRender = l2.map entryRender := by
  induction h with
  | nil => rfl
  | @cons x y t1 t2 hxy _ ih =>
      have hxy' : entryRender x = entryRender y := by
        unfold entryRender
        rw [hxy.1, hxy.2]
      simp only [List.map_cons, ih, hxy']

/-- Master invariance: `jequivb`-equivalent values render identically under
`stableStringify`; equivalent unique-key entry lists have permuted keys and
key-aligned sorted forms. -/
theorem stringify_equiv_all : ∀ f : ℕ,
    (∀ v w, jequivb f v w = true → stableStringify v = stableStringify w)
    ∧ (∀ xs ys, jequivbL f xs ys = true → xs.map stableStringify = ys.map stableStringify)
    ∧ (∀ es fs, (es.map Prod.fst).Nodup → jequivbM f es fs = true →
        (es.map Prod.fst).Perm (fs.map Prod.fst)
        ∧ List.Forall₂ entryR (sortEntriesByKey es) (sortEntriesByKey fs)) := by
  intro f
  induction f with
  | zero =>
      refine ⟨fun v w h => absurd h (by simp [jequivb]),
        fun xs ys h => absurd h (by simp [jequivbL]),
        fun es fs _ h => absurd h (by simp [jequivbM])⟩
  | succ f ih =>
      obtain ⟨ihV, ihL, ihM⟩ := ih
      refine ⟨?_, ?_, ?_⟩
      · intro v w h
        cases v with
        | null =>
            cases w with
            | null => rfl
            | bool b => exact absurd h (by simp [jequivb])
            | num q => exact absurd h (by simp [jequivb])
            | str s => exact absurd h (by simp [jequivb])
            | arr ys => exact absurd h (by simp [jequivb])
            | obj fs => exact absurd h (by simp [jequivb])
        | bool a =>
            cases w with
            | bool b =>
                have : a = b := of_decide_eq_true (show decide (a = b) = true from h)
                rw [this]
            | null => exact absurd h (by simp [jequivb])
            | num q => exact absurd h (by simp [jequivb])
            | str s => exact absurd h (by simp [jequivb])
            | arr ys => exact absurd h (by simp [jequivb])
            | obj fs => exact absurd h (by simp [jequivb])
        | num a =>
            cases w with
            | num b =>
                have : a = b := of_decide_eq_true (show decide (a = b) = true from h)
                rw [this]
            | null => exact absurd h (by simp [jequivb])
            | bool b => exact absurd h (by simp [jequivb])
            | str s => exact absurd h (by simp [jequivb])
            | arr ys => exact absurd h (by simp [jequivb])
            | obj fs => exact absurd h (by simp [jequivb])
        | str a =>
            cases w with
            | str b =>
                have : a = b := of_decide_eq_true (show decide (a = b) = true from h)
                rw [this]
            | null => exact absurd h (by simp [jequivb])
            | bool b => exact absurd h (by simp [jequivb])
            | num q => exact absurd h (by simp [jequivb])
            | arr ys => exact absurd h (by simp [jequivb])
            | obj fs => exact absurd h (by simp [jequivb])
        | arr xs =>
            cases w with
            | arr ys =>
                have hL : jequivbL f xs ys = true := h
                rw [stableStringify_arr, stableStringify_arr, ihL xs ys hL]
            | null => exact absurd h (by simp [jequivb])
            | bool b => exact absurd h (by simp [jequivb])
            | num q => exact absurd h (by simp [jequivb])
            | str s => exact absurd h (by simp [jequivb])
            | obj fs => exact absurd h (by simp [jequivb])
        | obj es =>
            cases w with
            | obj fs =>
                have hA : (nodupKeysB es && jequivbM f es fs) = true := h
                rw [Bool.and_eq_true] at hA
                obtain ⟨h1, h2⟩ := hA
                have hnd : (es.map Prod.fst).Nodup :=
                  of_decide_eq_true (show decide ((es.map Prod.fst).Nodup) = true from h1)
                have hm := ihM es fs hnd h2
                rw [stableStringify_obj, stableStringify_obj, forall₂_map_render hm.2]
            | null => exact absurd h (by simp [jequivb])
            | bool b => exact absurd h (by simp [jequivb])
            | num q => exact absurd h (by simp [jequivb])
            | str s => exact absurd h (by simp [jequivb])
            | arr ys => exact absurd h (by simp [jequivb])
      · intro xs ys h
        cases xs with
        | nil =>
            cases ys with
            | nil => rfl
            | cons y ys2 => exact absurd h (by simp [jequivbL])
        | cons x xs2 =>
            cases ys with
            | nil => exact absurd h (by simp [jequivbL])
            | cons y ys2 =>
                have hA : (jequivb f x y && jequivbL f xs2 ys2) = true := h
                rw [Bool.and_eq_true] at hA
                obtain ⟨h1, h2⟩ := hA
                simp only [List.map_cons, ihV x y h1, ihL xs2 ys2 h2]
      · intro es fs hnd h
        cases es with
        | nil =>
            cases fs with
            | nil => exact ⟨List.Perm.refl _, List.Forall₂.nil⟩
            | cons f0 fs2 => exact absurd h (by simp [jequivbM])
        | cons e es' =>
            obtain ⟨k, v⟩ := e
            cases hfr : findRemove k fs with
            | none =>
                exfalso
                have h' : (match findRemove k fs with
                    | some (w, fs2) => jequivb f v w && jequivbM f es' fs2
                    | none => false) = true := h
                rw [hfr] at h'
                exact Bool.false_ne_true h'
            | some p =>
                obtain ⟨w, fs2⟩ := p
                have h' : (match findRemove k fs with
                    | some (w, fs2) => jequivb f v w && jequivbM f es' fs2
                    | none => false) = true := h
                rw [hfr] at h'
                rw [Bool.and_eq_true] at h'
                obtain ⟨h1, h2⟩ := h'
                have hnd' : k ∉ es'.map Prod.fst ∧ (es'.map Prod.fst).Nodup := by
                  rw [List.map_cons] at hnd
                  exact List.nodup_cons.mp hnd
                have ihm := ihM es' fs2 hnd'.2 h2
                have hkp : (((k, v) :: es').map Prod.fst).Perm (fs.map Prod.fst) := by
                  have c2 := (findRemove_perm hfr).map Prod.fst
                  simp only [List.map_cons] at c2 ⊢
                  exact (ihm.1.cons k).trans c2.symm
                have hndfs : (fs.map Prod.fst).Nodup := hkp.nodup hnd
                have hsfs : sortEntriesByKey fs = sortEntriesByKey ((k, w) :: fs2) :=
                  sortEntries_perm_eq (findRemove_perm hfr) hndfs
                refine ⟨hkp, ?_⟩
                rw [hsfs]
                simp only [sortEntriesByKey, List.insertionSort]
                exact orderedInsert_forall₂ ihm.2 ⟨rfl, ihV v w h1⟩

/-- Equivalent unique-key maps agree on lookups, up to value equivalence. -/
theorem lookupKey_equivM : ∀ f : ℕ, ∀ es fs : List (String × JVal),
    jequivbM f es fs = true → ∀ key : String,
    (lookupKey key es = none ∧ lookupKey key fs = none)
    ∨ (∃ v w g, lookupKey key es = some v ∧ lookupKey key fs = some w
        ∧ jequivb g v w = true) := by
  intro f
  induction f with
  | zero => intro es fs h; exact absurd h (by simp [jequivbM])
  | succ f ih =>
      intro es fs h key
      cases es with
      | nil =>
          have hfs : fs = [] := by
            cases fs with
            | nil => rfl
            | cons a b => exact absurd (show List.isEmpty (a :: b) = true from h) (by simp)
          rw [hfs]
          exact Or.inl ⟨rfl, rfl⟩
      | cons e es' =>
          obtain ⟨k, v⟩ := e
          cases hfr : findRemove k fs with
          | none =>
              exfalso
              have h' : (match findRemove k fs with
                  | some (w, fs2) => jequivb f v w && jequivbM f es' fs2
                  | none => false) = true := h
              rw [hfr] at h'
              exact Bool.false_ne_true h'
          | some p =>
              obtain ⟨w, fs2⟩ := p
              have h' : (match findRemove k fs with
                  | some (w, fs2) => jequivb f v w && jequivbM f es' fs2
                  | none => false) = true := h
              rw [hfr] at h'
              rw [Bool.and_eq_true] at h'
              by_cases hkey : k = key
              · subst hkey
                refine Or.inr ⟨v, w, f, ?_, findRemove_lookup hfr, h'.1⟩
                simp [lookupKey]
              · have hlk : lookupKey key fs = lookupKey key fs2 :=
                  findRemove_lookup_other hfr (fun he => hkey he.symm)
                rcases ih es' fs2 h'.2 key with ⟨ha, hb⟩ | ⟨v0, w0, g, ha, hb, hg⟩
                · refine Or.inl ⟨?_, by rw [hlk]; exact hb⟩
                  simp only [lookupKey, if_neg hkey]
                  exact ha
                · refine Or.inr ⟨v0, w0, g, ?_, by rw [hlk]; exact hb, hg⟩
                  simp only [lookupKey, if_neg hkey]
                  exact ha


/-- Equivalent values coerce to the same number (`+v`): leaves are equal and
composites are NaN on both sides. -/
theorem jplus_equiv {g : ℕ} {v w : JVal} (h : jequivb g v w = true) :
    jplus (some v) = jplus (some w) := by
  cases g with
  | zero => exact absurd h (by simp [jequivb])
  | succ g =>
      cases v <;> cases w <;>
        first
        | rfl
        | (rw [of_decide_eq_true (show decide _ = true from h)])
        | (exact absurd h (by simp [jequivb]))

/-- Equivalent computed-entry lists yield the same `healthScore` read. -/
theorem hs_of_equivM {g : ℕ} {c c' : List (String × JVal)}
    (hgc : jequivbM g c c' = true) :
    toNumberL (lookupKey "healthScore" c) 70 = toNumberL (lookupKey "healthScore" c') 70 := by
  rcases lookupKey_equivM g c c' hgc "healthScore" with ⟨ha, hb⟩ | ⟨v, w, g2, ha, hb, hg⟩
  · simp only [toNumberL]
    rw [ha, hb]
  · simp only [toNumberL]
    rw [ha, hb, jplus_equiv hg]

/-- Key-order equivalence of optional records (the `healthRecord` inputs). -/
def optEquivM (h h' : Option (List (String × JVal))) : Prop :=
  match h, h' with
  | none, none => True
  | some es, some es' => ∃ g, jequivbM g es es' = true
  | _, _ => False

/-- The `healthRecord` fallback branch of `pickComputed`. -/
def recComputed (h : Option (List (String × JVal))) : List (String × JVal) :=
  match h with
  | some h0 =>
      match lookupKey "computed" h0 with
      | some (.obj es) => es
      | _ => []
  | none => []

/-- The fallback branch reads the same `healthScore` on equivalent records. -/
theorem hs_rec_equiv {h h' : Option (List (String × JVal))} (hh : optEquivM h h') :
    toNumberL (lookupKey "healthScore" (recComputed h)) 70
      = toNumberL (lookupKey "healthScore" (recComputed h')) 70 := by
  cases h with
  | none =>
      cases h' with
      | none => rfl
      | some es' => exact absurd hh (by simp [optEquivM])
  | some es =>
      cases h' with
      | none => exact absurd hh (by simp [optEquivM])
      | some es' =>
          obtain ⟨g, hg⟩ := hh
          simp only [recComputed]
          rcases lookupKey_equivM g es es' hg "computed" with ⟨ha, hb⟩ | ⟨v, w, g2, ha, hb, hgv⟩
          · rw [ha, hb]
          · rw [ha, hb]
            cases g2 with
            | zero => exact absurd hgv (by simp [jequivb])
            | succ g4 =>
                cases v with
                | null =>
                    cases w with
                    | null => rfl
                    | bool b2 => exact absurd hgv (by simp [jequivb])
                    | num q2 => exact absurd hgv (by simp [jequivb])
                    | str s2 => exact absurd hgv (by simp [jequivb])
                    | arr ys2 => exact absurd hgv (by simp [jequivb])
                    | obj fs2 => exact absurd hgv (by simp [jequivb])
                | bool b1 =>
                    cases w with
                    | null => exact absurd hgv (by simp [jequivb])
                    | bool b2 => rfl
                    | num q2 => exact absurd hgv (by simp [jequivb])
                    | str s2 => exact absurd hgv (by simp [jequivb])
                    | arr ys2 => exact absurd hgv (by simp [jequivb])
                    | obj fs2 => exact absurd hgv (by simp [jequivb])
                | num q1 =>
                    cases w with
                    | null => exact absurd hgv (by simp [jequivb])
                    | bool b2 => exact absurd hgv (by simp [jequivb])
                    | num q2 => rfl
                    | str s2 => exact absurd hgv (by simp [jequivb])
                    | arr ys2 => exact absurd hgv (by simp [jequivb])
                    | obj fs2 => exact absurd hgv (by simp [jequivb])
                | str s1 =>
                    cases w with
                    | null => exact absurd hgv (by simp [jequivb])
                    | bool b2 => exact absurd hgv (by simp [jequivb])
                    | num q2 => exact absurd hgv (by simp [jequivb])
                    | str s2 => rfl
                    | arr ys2 => exact absurd hgv (by simp [jequivb])
                    | obj fs2 => exact absurd hgv (by simp [jequivb])
                | arr xs1 =>
                    cases w with
                    | null => exact absurd hgv (by simp [jequivb])
                    | bool b2 => exact absurd hgv (by simp [jequivb])
                    | num q2 => exact absurd hgv (by simp [jequivb])
                    | str s2 => exact absurd hgv (by simp [jequivb])
                    | arr ys2 => rfl
                    | obj fs2 => exact absurd hgv (by simp [jequivb])
                | obj es2 =>
                    cases w with
                    | null => exact absurd hgv (by simp [jequivb])
                    | bool b2 => exact absurd hgv (by simp [jequivb])
                    | num q2 => exact absurd hgv (by simp [jequivb])
                    | str s2 => exact absurd hgv (by simp [jequivb])
                    | arr ys2 => exact absurd hgv (by simp [jequivb])
                    | obj fs2 =>
                        exact hs_of_equivM (by
                          have hA : (nodupKeysB _ && jequivbM g4 _ _) = true := hgv
                          rw [Bool.and_eq_true] at hA
                          exact hA.2)

/-- The `healthScore` read through `pickComputed` is invariant under
key-order equivalence of `today` and `healthRecord`. -/
theorem healthScore_equiv {f : ℕ} {t t' : List (String × JVal)}
    {h h' : Option (List (String × JVal))}
    (ht : jequivbM f t t' = true) (hh : optEquivM h h') :
    toNumberL (lookupKey "healthScore" (pickComputed t h)) 70
      = toNumberL (lookupKey "healthScore" (pickComputed t' h')) 70 := by
  unfold pickComputed
  rcases lookupKey_equivM f t t' ht "computed" with ⟨ha, hb⟩ | ⟨v, w, g, ha, hb, hgv⟩
  · rw [ha, hb]
    exact hs_rec_equiv hh
  · rw [ha, hb]
    cases g with
    | zero => exact absurd hgv (by simp [jequivb])
    | succ g4 =>
        cases v with
        | null =>
            cases w with
            | null => exact hs_rec_equiv hh
            | bool b2 => exact absurd hgv (by simp [jequivb])
            | num q2 => exact absurd hgv (by simp [jequivb])
            | str s2 => exact absurd hgv (by simp [jequivb])
            | arr ys2 => exact absurd hgv (by simp [jequivb])
            | obj fs2 => exact absurd hgv (by simp [jequivb])
        | bool b1 =>
            cases w with
            | null => exact absurd hgv (by simp [jequivb])
            | bool b2 => exact hs_rec_equiv hh
            | num q2 => exact absurd hgv (by simp [jequivb])
            | str s2 => exact absurd hgv (by simp [jequivb])
            | arr ys2 => exact absurd hgv (by simp [jequivb])
            | obj fs2 => exact absurd hgv (by simp [jequivb])
        | num q1 =>
            cases w with
            | null => exact absurd hgv (by simp [jequivb])
            | bool b2 => exact absurd hgv (by simp [jequivb])
            | num q2 => exact hs_rec_equiv hh
            | str s2 => exact absurd hgv (by simp [jequivb])
            | arr ys2 => exact absurd hgv (by simp [jequivb])
            | obj fs2 => exact absurd hgv (by simp [jequivb])
        | str s1 =>
            cases w with
            | null => exact absurd hgv (by simp [jequivb])
            | bool b2 => exact absurd hgv (by simp [jequivb])
            | num q2 => exact absurd hgv (by simp [jequivb])
            | str s2 => exact hs_rec_equiv hh
            | arr ys2 => exact absurd hgv (by simp [jequivb])
            | obj fs2 => exact absurd hgv (by simp [jequivb])
        | arr xs1 =>
            cases w with
            | null => exact absurd hgv (by simp [jequivb])
            | bool b2 => exact absurd hgv (by simp [jequivb])
            | num q2 => exact absurd hgv (by simp [jequivb])
            | str s2 => exact absurd hgv (by simp [jequivb])
            | arr ys2 => exact hs_rec_equiv hh
            | obj fs2 => exact absurd hgv (by simp [jequivb])
        | obj es2 =>
            cases w with
            | null => exact absurd hgv (by simp [jequivb])
            | bool b2 => exact absurd hgv (by simp [jequivb])
            | num q2 => exact absurd hgv (by simp [jequivb])
            | str s2 => exact absurd hgv (by simp [jequivb])
            | arr ys2 => exact absurd hgv (by simp [jequivb])
            | obj fs2 =>
                exact hs_of_equivM (by
                  have hA : (nodupKeysB _ && jequivbM g4 _ _) = true := hgv
                  rw [Bool.and_eq_true] at hA
                  exact hA.2)

/-- Key-order equivalence of the optional `healthRecord` argument, value
level. -/
def optValEquiv (f : ℕ) (h h' : Option (List (String × JVal))) : Prop :=
  match h, h' with
  | none, none => True
  | some es, some es' => jequivb f (.obj es) (.obj es') = true
  | _, _ => False

/-- C1: `buildFaceAnalysis` and `buildBodyAnalysis` are deterministic (they
are pure functions of their input in this embedding) and key-insertion-order
independent: inputs with equal `uid`/`imageUrl` whose `today`, `history` and
`healthRecord` differ only by object key order (same key-value sets, unique
keys) produce identical responses, because the seed is built with the
sorted-key `stableStringify` and the only other input read, `healthScore`,
goes through key lookup. -/
theorem analysis_order_independent (f : ℕ) (inp inp' : AnalysisInput)
    (huid : inp.uid = inp'.uid) (himg : inp.imageUrl = inp'.imageUrl)
    (htoday : jequivb f (.obj inp.today) (.obj inp'.today) = true)
    (hhist : jequivb f (.arr inp.history) (.arr inp'.history) = true)
    (hhr : optValEquiv f inp.healthRecord inp'.healthRecord) :
    buildFaceAnalysis inp = buildFaceAnalysis inp'
    ∧ buildBodyAnalysis inp = buildBodyAnalysis inp' := by
  have hstr := (stringify_equiv_all f).1
  have hsb : ∀ tail, seedBaseOf inp tail = seedBaseOf inp' tail := by
    intro tail
    unfold seedBaseOf
    cases hh1 : inp.healthRecord with
    | none =>
        cases hh2 : inp'.healthRecord with
        | none =>
            rw [huid, himg, hstr _ _ htoday, hstr _ _ hhist]
        | some es' =>
            rw [hh1, hh2] at hhr
            exact absurd hhr (by simp [optValEquiv])
    | some es =>
        cases hh2 : inp'.healthRecord with
        | none =>
            rw [hh1, hh2] at hhr
            exact absurd hhr (by simp [optValEquiv])
        | some es' =>
            rw [hh1, hh2] at hhr
            have hg : jequivb f (.obj es) (.obj es') = true := hhr
            rw [huid, himg, hstr _ _ htoday, hstr _ _ hhist]
            exact congrArg
              (fun x => String.intercalate "|"
                [inp'.uid, trimStr inp'.imageUrl, stableStringify (.obj inp'.today),
                 stableStringify (.arr inp'.history), x, tail])
              (hstr _ _ hg)
  have hhs : toNumberL (lookupKey "healthScore"
        (pickComputed inp.today inp.healthRecord)) 70
      = toNumberL (lookupKey "healthScore"
        (pickComputed inp'.today inp'.healthRecord)) 70 := by
    cases f with
    | zero => exact absurd htoday (by simp [jequivb])
    | succ f1 =>
        have hA : (nodupKeysB inp.today && jequivbM f1 inp.today inp'.today) = true := htoday
        rw [Bool.and_eq_true] at hA
        have hopt : optEquivM inp.healthRecord inp'.healthRecord := by
          cases hh1 : inp.healthRecord with
          | none =>
              cases hh2 : inp'.healthRecord with
              | none => trivial
              | some es' =>
                  rw [hh1, hh2] at hhr
                  exact absurd hhr (by simp [optValEquiv])
          | some es =>
              cases hh2 : inp'.healthRecord with
              | none =>
                  rw [hh1, hh2] at hhr
                  exact absurd hhr (by simp [optValEquiv])
              | some es' =>
                  rw [hh1, hh2] at hhr
                  have hg : jequivb (f1 + 1) (.obj es) (.obj es') = true := hhr
                  have hB : (nodupKeysB es && jequivbM f1 es es') = true := hg
                  rw [Bool.and_eq_true] at hB
                  exact ⟨f1, hB.2⟩
        exact healthScore_equiv hA.2 hopt
  constructor
  · simp only [buildFaceAnalysis]
    rw [hsb "face", hhs]
  · simp only [buildBodyAnalysis]
    rw [hsb "body"]

def inpA : AnalysisInput :=
  ⟨"u1", "https://x/img.png", [("a", .str "1"), ("b", .str "2")], [], none⟩

def inpB : AnalysisInput :=
  ⟨"u1", "https://x/img.png", [("b", .str "2"), ("a", .str "1")], [], none⟩

theorem analysis_order_independent_witness :
    buildFaceAnalysis inpA = buildFaceAnalysis inpB
    ∧ buildBodyAnalysis inpA = buildBodyAnalysis inpB :=
  analysis_order_independent 10 inpA inpB rfl rfl (by decide) rfl trivial
